import Mathlib

/-!
Shallow embedding of `drivers/gpu/ion/ion_system_heap.c` (ION tiered
page-allocation backend) and verification of its specified properties.

Pages are abstract records (id, residency, content class, and the two
per-page scratch fields the driver uses: the pack-time order stored in
`page->private` and the `PG_ion_frompool` bit).  The host memory system
(`alloc_pages`, `kmalloc`/`sg_alloc_table`/`kzalloc` success) is an
oracle threaded through the state; pages released to the host and the
allocation-intent flags of every host allocation are logged so that
theorems can observe them.
-/

namespace Ion

/-- Allocation-intent flag bundles: `low_order_gfp_flags` vs
`high_order_gfp_flags` in the source. -/
inductive GfpKind where
  | lowOrder
  | highOrder
deriving DecidableEq

/-- A physical page frame.  `id` identifies the frame; a host-allocated
run of order `o` occupies ids `id ..< id + 2^o`.  `high` is the
residency class (highmem vs lowmem), `zeroed` the content class.
`order` models the `page->private` scratch (`ion_page_order`) and
`from_pool` the `PG_ion_frompool` page-flag bit. -/
structure Page where
  id : Nat
  high : Bool
  zeroed : Bool
  order : Nat
  from_pool : Bool
deriving DecidableEq

/-- The host memory system, as an oracle.  `avail` decides each
`alloc_pages` attempt (`none` = failure, `some hi` = success with
residency `hi`); `kalloc_ok` decides each `kmalloc`/`sg_alloc_table`/
`kzalloc` attempt.  `alloc_log` records the intent flags and order of
every `alloc_pages` attempt; `freed` records every run returned to the
host as (base page, order). -/
structure Host where
  next_id : Nat
  avail : List (Option Bool)
  kalloc_ok : List Bool
  alloc_log : List (GfpKind × Nat)
  freed : List (Page × Nat)
deriving DecidableEq

/-- Host page-run allocation (`alloc_pages(gfp_flags, order)`).  Fresh
pages are not zeroed, and carry cleared scratch fields. -/
def alloc_pages (gfp : GfpKind) (order : Nat) (h : Host) : Option Page × Host :=
  match h.avail with
  | [] => (none, { h with alloc_log := h.alloc_log ++ [(gfp, order)] })
  | o :: rest =>
    let h' := { h with avail := rest, alloc_log := h.alloc_log ++ [(gfp, order)] }
    match o with
    | none => (none, h')
    | some hi =>
      (some { id := h.next_id, high := hi, zeroed := false, order := 0, from_pool := false },
       { h' with next_id := h.next_id + (1 <<< order) })

/-- One `kmalloc`/`sg_alloc_table`/`kzalloc` attempt against the oracle. -/
def kalloc_attempt (h : Host) : Bool × Host :=
  match h.kalloc_ok with
  | [] => (false, h)
  | b :: rest => (b, { h with kalloc_ok := rest })

def PAGE_SIZE : Nat := 4096

/-- Macro `PAGE_ALIGN(x)` in unbounded arithmetic: round up to a whole
number of pages. -/
def PAGE_ALIGN (x : Nat) : Nat := ((x + PAGE_SIZE - 1) / PAGE_SIZE) * PAGE_SIZE

/-- Macro `PAGE_ALIGN(x)` as evaluated by the source: `unsigned long` is
32 bits on this platform, so the addition `x + PAGE_SIZE - 1` wraps
modulo `2^32` before the mask `& PAGE_MASK` is applied. -/
def PAGE_ALIGN32 (x : Nat) : Nat :=
  (((x + PAGE_SIZE - 1) % 2 ^ 32) / PAGE_SIZE) * PAGE_SIZE

/-- Value of `long size_remaining = PAGE_ALIGN(size)` at entry to the
packing loop, as the number of bytes the loop will actually pack.  The
`size` parameter is a 32-bit `unsigned long`; `PAGE_ALIGN` is computed
in 32-bit unsigned arithmetic; the result is stored in a signed 32-bit
`long`, and `while (size_remaining > 0)` compares it as signed, so an
aligned value of `0` or `>= 2^31` (negative as signed) never enters the
loop body - the same as entering with `0` bytes to pack.  Once entered,
the remainder only decreases from a value below `2^31`, where the signed
and natural comparisons agree. -/
def entry_remaining (size : Nat) : Nat :=
  let aligned := PAGE_ALIGN32 (size % 2 ^ 32)
  if aligned < 2 ^ 31 then aligned else 0

/-- Kernel `get_order(size)`: smallest order whose run covers `size`
bytes (the search bound 64 exceeds any order a 64-bit size can need). -/
def get_order (size : Nat) : Nat :=
  ((List.range 64).find? (fun o => size ≤ PAGE_SIZE <<< o)).getD 64

/-- Source: `static const unsigned int orders[] = {8, 4, 0};` -/
def orders : List Nat := [8, 4, 0]

/-- Source: `ARRAY_SIZE(orders)` -/
def num_orders : Nat := orders.length

/-- The scan loop of `order_to_index`. -/
def order_to_index_go (order : Nat) : Nat → List Nat → Option Nat
  | _, [] => none
  | i, o :: rest => if order = o then some i else order_to_index_go order (i + 1) rest

/-- Function `order_to_index(order)`: position of `order` in the order set;
`none` models the `BUG()` branch. -/
def order_to_index (order : Nat) : Option Nat := order_to_index_go order 0 orders

/-- Function `order_to_size(order) = PAGE_SIZE << order`. -/
def order_to_size (order : Nat) : Nat := PAGE_SIZE <<< order

/-- The buffer flag bits the heap recognizes.
Modelled from the spec: the flag readers `ion_buffer_cached`,
`ion_buffer_fault_user_mappings`, `ion_buffer_sync_force` and the
`ION_FLAG_NOZEROED` test live outside this file's source; the spec names
exactly the four recognized bits `CACHED`, `FAULT_USER_MAPPINGS`,
`NOZEROED`, `SYNC_FORCE` and says all other bits are ignored. -/
structure IonFlags where
  cached : Bool
  fault_user_mappings : Bool
  nozeroed : Bool
  sync_force : Bool
deriving DecidableEq

/-- The fields of `struct ion_buffer` the contiguous heap touches:
`priv_virt` holds the bytes of the single run. -/
structure IonBuffer where
  flags : IonFlags
  priv_virt : Option (List Nat)
deriving DecidableEq

/-- A scatter/gather entry: page pointer and byte length (offset is
always zero in this driver). -/
structure Scatterlist where
  page : Page
  length : Nat
deriving DecidableEq

/-- One per-order page pool: two LIFO stacks plus the refill intent
flags.  `high_count`/`low_count` are the stack lengths.
Modelled from the spec: `struct ion_page_pool` and its operations live
in a file outside src/; §4.1 gives the stack/counter structure. -/
structure IonPagePool where
  order : Nat
  gfp : GfpKind
  high_items : List Page
  low_items : List Page
deriving DecidableEq

def IonPagePool.high_count (p : IonPagePool) : Nat := p.high_items.length

def IonPagePool.low_count (p : IonPagePool) : Nat := p.low_items.length

/-- Modelled from the spec: `ion_page_pool_alloc` serves the high stack,
then the low stack, then a fresh host allocation at the pool's order
with the pool's intent flags; it returns null only if the fresh
allocation fails (§4.1). -/
def ion_page_pool_alloc (pool : IonPagePool) (h : Host) :
    Option Page × IonPagePool × Host :=
  match pool.high_items with
  | pg :: rest => (some pg, { pool with high_items := rest }, h)
  | [] =>
    match pool.low_items with
    | pg :: rest => (some pg, { pool with low_items := rest }, h)
    | [] =>
      let r := alloc_pages pool.gfp pool.order h
      (r.1, pool, r.2)

/-- Modelled from the spec: `ion_page_pool_free` pushes the page onto
the high or low stack according to its residency (§4.1; the zeroing of
uncached releases happens earlier, on the heap's free path, §4.3). -/
def ion_page_pool_free (pool : IonPagePool) (pg : Page) : IonPagePool :=
  if pg.high then { pool with high_items := pg :: pool.high_items }
  else { pool with low_items := pg :: pool.low_items }

/-- The system heap state: the pool array (indexed by position in the
order set), the host oracle, the log of `ion_heap_buffer_zero` calls
(each entry lists the page ids zeroed), and a flag recording whether a
`BUG()` was reached. -/
structure HeapState where
  pools : List IonPagePool
  host : Host
  zero_log : List (List Nat)
  bugged : Bool
deriving DecidableEq

/-- Count `high_count + low_count` of pool `idx` (0 when out of range). -/
def pool_count (st : HeapState) (idx : Nat) : Nat :=
  match st.pools[idx]? with
  | some p => p.high_count + p.low_count
  | none => 0

/-- Function `alloc_buffer_page(heap, buffer, order)`: pool for non-cached
buffers, direct host allocation (low-order flags for order 0,
high-order flags otherwise) for cached ones.  `split_page` has no
effect on the modelled state. -/
def alloc_buffer_page (st : HeapState) (flags : IonFlags) (order : Nat) :
    Option Page × HeapState :=
  match order_to_index order with
  | none => (none, { st with bugged := true })
  | some idx =>
    if !flags.cached then
      match st.pools[idx]? with
      | none => (none, { st with bugged := true })
      | some pool =>
        let r := ion_page_pool_alloc pool st.host
        (r.1, { st with pools := st.pools.set idx r.2.1, host := r.2.2 })
    else
      let gfp := if order > 0 then GfpKind.highOrder else GfpKind.lowOrder
      let r := alloc_pages gfp order st.host
      (r.1, { st with host := r.2 })

/-- Function `free_buffer_page(heap, buffer, page, order)`: non-cached runs go
back to the matching pool; cached runs go to the host, page-wise when
the buffer demanded fault mappings (the run was split). -/
def free_buffer_page (st : HeapState) (flags : IonFlags) (pg : Page) (order : Nat) :
    HeapState :=
  if !flags.cached then
    match order_to_index order with
    | none => { st with bugged := true }
    | some idx =>
      match st.pools[idx]? with
      | none => { st with bugged := true }
      | some pool =>
        { st with pools := st.pools.set idx (ion_page_pool_free pool pg) }
  else if flags.fault_user_mappings then
    { st with host := { st.host with
        freed := st.host.freed ++
          (List.range (1 <<< order)).map (fun i => ({ pg with id := pg.id + i }, 0)) } }
  else
    { st with host := { st.host with freed := st.host.freed ++ [(pg, order)] } }

/-- The scan of `alloc_largest_available` over the order set.  The
`from_pool` accumulator mirrors the single C local: it is set (never
reset) when a considered order's pool has a resident page, read under
the pool mutex before the allocation attempt. -/
def alloc_largest_go (flags : IonFlags) (size : Nat) (max_order : Nat) :
    HeapState → Bool → List Nat → Option Page × HeapState
  | st, _, [] => (none, st)
  | st, from_pool, o :: rest =>
    if size < order_to_size o then alloc_largest_go flags size max_order st from_pool rest
    else if max_order < o then alloc_largest_go flags size max_order st from_pool rest
    else
      let fpst :=
        if !flags.cached then
          match (order_to_index o).bind (fun idx => st.pools[idx]?) with
          | none => (from_pool, { st with bugged := true })
          | some pool =>
            (from_pool || decide (pool.high_count > 0) || decide (pool.low_count > 0), st)
        else (from_pool, st)
      let r := alloc_buffer_page fpst.2 flags o
      match r.1 with
      | none => alloc_largest_go flags size max_order r.2 fpst.1 rest
      | some pg =>
        let pg := { pg with order := o }
        (some (if fpst.1 then { pg with from_pool := true } else pg), r.2)

/-- Function `alloc_largest_available(heap, buffer, size, max_order)`. -/
def alloc_largest_available (st : HeapState) (flags : IonFlags) (size : Nat)
    (max_order : Nat) : Option Page × HeapState :=
  alloc_largest_go flags size max_order st false orders

/-- The `while (size_remaining > 0)` packing loop of
`ion_system_heap_allocate`.  The fuel argument only bounds the
recursion; it is instantiated with `entry_remaining size / PAGE_SIZE`,
enough for the worst case of one page per iteration, so the fuel-0
branch is only ever reached with `remaining = 0`.  Returns (success,
runs in pack order) and the final state; on failure the partially
collected runs are returned for the caller to unwind. -/
def pack_go (flags : IonFlags) :
    Nat → HeapState → Nat → Nat → (Bool × List Page) × HeapState
  | 0, st, remaining, _ => ((decide (remaining = 0), []), st)
  | fuel + 1, st, remaining, max_order =>
    if remaining = 0 then ((true, []), st)
    else
      match alloc_largest_available st flags remaining max_order with
      | (none, st') => ((false, []), st')
      | (some pg, st') =>
        let r := pack_go flags fuel st' (remaining - order_to_size pg.order) pg.order
        ((r.1.1, pg :: r.1.2), r.2)

/-- Scatter/gather table population: one entry per run, or one entry per
page when the runs were split for fault mappings.  The C code stores the
page pointer and then clears its scratch fields, so the recorded pages
carry `order = 0`, `from_pool = false`. -/
def sg_entries (split_pages : Bool) (pages : List Page) : List Scatterlist :=
  if split_pages then
    pages.flatMap (fun pg =>
      (List.range (1 <<< pg.order)).map (fun i =>
        { page := { pg with id := pg.id + i, order := 0, from_pool := false },
          length := PAGE_SIZE }))
  else
    pages.map (fun pg =>
      { page := { pg with order := 0, from_pool := false },
        length := (1 <<< pg.order) * PAGE_SIZE })

/-- The error-path unwind of `ion_system_heap_allocate`: each collected
run has its scratch fields read and cleared, then is handed to
`free_buffer_page` at its recorded order. -/
def free_pages_list (st : HeapState) (flags : IonFlags) (pages : List Page) : HeapState :=
  pages.foldl
    (fun st pg => free_buffer_page st flags { pg with order := 0, from_pool := false } pg.order)
    st

def ENOMEM : Int := 12

/-- The fields of `struct ion_buffer` the system heap reads or writes:
the flag set, the `priv_virt` slot that receives the scatter/gather
table, and the readiness latch (set via `ion_buffer_set_ready`). -/
structure SysBuffer where
  flags : IonFlags
  priv_virt : Option (List Scatterlist)
  ready : Bool
deriving DecidableEq

/-- Result of `ion_system_heap_allocate`: return code, the buffer as
left by the call, and the final heap state. -/
structure AllocResult where
  ret : Int
  buffer : SysBuffer
  st : HeapState
deriving DecidableEq

/-- Function `ion_system_heap_allocate(heap, buffer, size, align, flags)`.
`ion_device_sync` (the `SYNC_FORCE` pre-sync) touches no modelled state.
Readiness is latched iff all runs carried `from_pool` or `SYNC_FORCE`
is set. -/
def ion_system_heap_allocate (st : HeapState) (buffer : SysBuffer) (size : Nat) :
    AllocResult :=
  let flags := buffer.flags
  let split_pages := flags.fault_user_mappings
  let remaining := entry_remaining size
  let pr := pack_go flags (remaining / PAGE_SIZE) st remaining (orders.headD 0)
  if !pr.1.1 then
    { ret := -ENOMEM, buffer := buffer, st := free_pages_list pr.2 flags pr.1.2 }
  else
    let kt := kalloc_attempt pr.2.host
    let st1 : HeapState := { pr.2 with host := kt.2 }
    if !kt.1 then
      { ret := -ENOMEM, buffer := buffer, st := free_pages_list st1 flags pr.1.2 }
    else
      let ks := kalloc_attempt st1.host
      let st2 : HeapState := { st1 with host := ks.2 }
      if !ks.1 then
        { ret := -ENOMEM, buffer := buffer, st := free_pages_list st2 flags pr.1.2 }
      else
        let all_from_pool := pr.1.2.all (fun pg => pg.from_pool)
        { ret := 0,
          buffer := { buffer with
            priv_virt := some (sg_entries split_pages pr.1.2),
            ready := buffer.ready || all_from_pool || flags.sync_force },
          st := st2 }

/-- Function `ion_system_heap_free(buffer)`.  If the buffer is non-cached and not
`NOZEROED`, `ion_heap_buffer_zero` zeroes every page reachable through
the table (modelled from the spec: that helper lives outside src/;
§4.3 step 1 says it zeroes every page in the scatter/gather table) and
the call is logged; then every entry is freed at the order reconstructed
from its byte length. -/
def ion_system_heap_free (st : HeapState) (flags : IonFlags)
    (table : List Scatterlist) : HeapState :=
  let do_zero := !flags.cached && !flags.nozeroed
  let table' :=
    if do_zero then table.map (fun e => { e with page := { e.page with zeroed := true } })
    else table
  let st' :=
    if do_zero then { st with zero_log := st.zero_log ++ [table.map (fun e => e.page.id)] }
    else st
  table'.foldl (fun st e => free_buffer_page st flags e.page (get_order e.length)) st'

/-- Function `kzalloc(len, GFP_KERNEL)`: a zeroing allocation.  Modelled from the
kernel contract of `kzalloc` (outside this repository): on success the
returned memory is `len` zero bytes. -/
def kzalloc (len : Nat) (h : Host) : Option (List Nat) × Host :=
  let r := kalloc_attempt h
  (if r.1 then some (List.replicate len 0) else none, r.2)

/-- Function `ion_system_contig_heap_allocate(heap, buffer, len, align, flags)`:
stores a `kzalloc(len)` result in `buffer->priv_virt`. -/
def ion_system_contig_heap_allocate (h : Host) (buffer : IonBuffer) (len : Nat) :
    (Int × IonBuffer) × Host :=
  let r := kzalloc len h
  match r.1 with
  | none => ((-ENOMEM, buffer), r.2)
  | some mem => ((0, { buffer with priv_virt := some mem }), r.2)

/-! ### Accounting: pages held in pools, pages returned to the host -/
/-- Pages represented by a pool: each stack entry stands for a run of
`2^order` pages. -/
def poolPages (p : IonPagePool) : Nat := (p.high_count + p.low_count) <<< p.order

/-- Pages held across all pools of the heap. -/
def held (st : HeapState) : Nat := (st.pools.map poolPages).sum

/-- Pages recorded as returned to the host. -/
def hostFreed (h : Host) : Nat := (h.freed.map (fun e => 1 <<< e.2)).sum

/-- Pages accounted for by the heap state: pooled plus host-returned. -/
def balance (st : HeapState) : Nat := held st + hostFreed st.host

/-- Pages represented by a list of runs. -/
def pagesOf (l : List Page) : Nat := (l.map (fun pg => 1 <<< pg.order)).sum

/-- All pages currently resident in some pool stack. -/
def poolResidents (st : HeapState) : List Page :=
  st.pools.flatMap (fun p => p.high_items ++ p.low_items)

/-- Well-formedness of a heap state: the pool array holds one pool per
entry of the order set, in order-set position (as built by
`ion_system_heap_create`). -/
def WF (st : HeapState) : Prop := st.pools.map IonPagePool.order = orders

instance (st : HeapState) : Decidable (WF st) := by unfold WF; infer_instance

/-- A non-increasing list of naturals (adjacent comparison). -/
def nonIncreasing : List Nat → Bool
  | [] => true
  | [_] => true
  | a :: b :: rest => decide (b ≤ a) && nonIncreasing (b :: rest)

/-- The packing-loop call made by `ion_system_heap_allocate`, with the
fuel, padded size and initial cap it passes. -/
def packResult (st : HeapState) (buffer : SysBuffer) (size : Nat) :
    (Bool × List Page) × HeapState :=
  pack_go buffer.flags (entry_remaining size / PAGE_SIZE) st (entry_remaining size)
    (orders.headD 0)

/-! ### Concrete fixtures: a freshly created heap and small buffers -/
/-- An empty pool at a given order, with the intent flags
`ion_system_heap_create` would give it. -/
def mkPool (o : Nat) : IonPagePool :=
  { order := o,
    gfp := if o > 0 then GfpKind.highOrder else GfpKind.lowOrder,
    high_items := [], low_items := [] }

/-- A host oracle that will satisfy a few page and kmalloc requests. -/
def wHost : Host :=
  { next_id := 100,
    avail := [some true, some true, some true],
    kalloc_ok := [true, true],
    alloc_log := [], freed := [] }

/-- A freshly created system heap (three empty pools) over `wHost`. -/
def wSt : HeapState :=
  { pools := [mkPool 8, mkPool 4, mkPool 0], host := wHost,
    zero_log := [], bugged := false }

/-- Non-cached, non-split, zeroing, no forced sync. -/
def ncFlags : IonFlags :=
  { cached := false, fault_user_mappings := false, nozeroed := false,
    sync_force := false }

/-- Cached flags. -/
def cFlags : IonFlags :=
  { cached := true, fault_user_mappings := false, nozeroed := false,
    sync_force := false }

/-- Non-cached split (fault-mapped) flags, as in spec scenario 6. -/
def cexFlags : IonFlags :=
  { cached := false, fault_user_mappings := true, nozeroed := false,
    sync_force := false }

def wBuf : SysBuffer := { flags := ncFlags, priv_virt := none, ready := false }

def cBuf : SysBuffer := { flags := cFlags, priv_virt := none, ready := false }

/-- A pooled, already-zeroed single page. -/
def pz : Page :=
  { id := 7, high := false, zeroed := true, order := 0, from_pool := false }

/-- The heap `wSt` with one page resident in the order-0 pool. -/
def stP : HeapState :=
  { wSt with pools := [mkPool 8, mkPool 4,
      ({ mkPool 0 with low_items := [pz] })] }

/-- An exhausted host: no pages, no kernel allocations. -/
def hostE : Host :=
  { next_id := 0, avail := [], kalloc_ok := [], alloc_log := [], freed := [] }

/-- The heap `wSt` over an exhausted host. -/
def stE : HeapState := { wSt with host := hostE }

/-- The 16-single-page table of a freed split order-4 run
(spec scenario 6). -/
def cexTbl : List Scatterlist :=
  (List.range 16).map (fun i =>
    { page := { id := 200 + i, high := false, zeroed := false, order := 0,
                from_pool := false },
      length := PAGE_SIZE })

/-- A one-entry single-page table. -/
def tbl1 : List Scatterlist :=
  [{ page := { id := 300, high := false, zeroed := false, order := 0,
               from_pool := false },
     length := PAGE_SIZE }]

/-- A one-entry order-4 table (64 KiB run). -/
def tblC : List Scatterlist :=
  [{ page := { id := 400, high := true, zeroed := false, order := 0,
               from_pool := false },
     length := 65536 }]

/-- Expected table for `allocate wSt wBuf 4096`. -/
def wTbl : List Scatterlist :=
  [{ page := { id := 100, high := true, zeroed := false, order := 0,
               from_pool := false },
     length := 4096 }]

/-- Expected table for `allocate wSt wBuf 69632` (64 KiB + 4 KiB). -/
def wTbl4 : List Scatterlist :=
  [{ page := { id := 100, high := true, zeroed := false, order := 0,
               from_pool := false },
     length := 65536 },
   { page := { id := 116, high := true, zeroed := false, order := 0,
               from_pool := false },
     length := 4096 }]

/-- Expected run returned by the packer step on `stP`. -/
def pgW : Page :=
  { id := 7, high := false, zeroed := true, order := 0, from_pool := true }

/-! ### Facts about the order set and sizes -/
theorem order_to_index_eq (o : Nat) :
    order_to_index o =
      if o = 8 then some 0 else if o = 4 then some 1 else if o = 0 then some 2
      else none := by
  simp [order_to_index, orders, order_to_index_go]

theorem order_to_index_lt {o idx : Nat} (h : order_to_index o = some idx) :
    idx < num_orders := by
  rw [order_to_index_eq] at h
  have hn : num_orders = 3 := rfl
  rw [hn]
  split at h
  · simp only [Option.some.injEq] at h; omega
  · split at h
    · simp only [Option.some.injEq] at h; omega
    · split at h
      · simp only [Option.some.injEq] at h; omega
      · simp at h

theorem orders_get_of_index {o idx : Nat} (h : order_to_index o = some idx) :
    orders[idx]? = some o := by
  rw [order_to_index_eq] at h
  split at h
  · rename_i h1
    simp only [Option.some.injEq] at h
    subst h; subst h1; decide
  · split at h
    · rename_i h1 h2
      simp only [Option.some.injEq] at h
      subst h; subst h2; decide
    · split at h
      · rename_i h1 h2 h3
        simp only [Option.some.injEq] at h
        subst h; subst h3; decide
      · simp at h

theorem order_to_index_of_mem {o : Nat} (h : o ∈ orders) :
    ∃ idx, order_to_index o = some idx := by
  rw [orders] at h
  simp only [List.mem_cons, List.not_mem_nil, or_false] at h
  rcases h with rfl | rfl | rfl
  · exact ⟨0, by decide⟩
  · exact ⟨1, by decide⟩
  · exact ⟨2, by decide⟩

theorem order_to_size_pos (o : Nat) : 0 < order_to_size o := by
  simp [order_to_size, Nat.shiftLeft_eq, PAGE_SIZE]

theorem order_to_size_eq (o : Nat) : order_to_size o = (1 <<< o) * PAGE_SIZE := by
  simp [order_to_size, Nat.shiftLeft_eq, PAGE_SIZE]
  ring

theorem get_order_order_to_size {o : Nat} (h : o ∈ orders) :
    get_order ((1 <<< o) * PAGE_SIZE) = o := by
  rw [orders] at h
  simp only [List.mem_cons, List.not_mem_nil, or_false] at h
  rcases h with rfl | rfl | rfl <;> decide

theorem PAGE_ALIGN_pos {s : Nat} (h : 0 < s) : 0 < PAGE_ALIGN s := by
  have : PAGE_SIZE ≤ s + PAGE_SIZE - 1 := by unfold PAGE_SIZE at *; omega
  unfold PAGE_ALIGN
  have h2 : 0 < (s + PAGE_SIZE - 1) / PAGE_SIZE := by
    apply Nat.div_pos this
    unfold PAGE_SIZE; omega
  unfold PAGE_SIZE at *
  omega

theorem le_PAGE_ALIGN (s : Nat) : s ≤ PAGE_ALIGN s := by
  simp only [PAGE_ALIGN, PAGE_SIZE]
  omega

/-- When the padded size fits a signed 32-bit `long`, no wrap or
sign-flip occurs and the packing loop is entered with the full
`PAGE_ALIGN` of the request. -/
theorem entry_remaining_small {s : Nat} (h : PAGE_ALIGN s < 2 ^ 31) :
    entry_remaining s = PAGE_ALIGN s := by
  have hle := le_PAGE_ALIGN s
  simp only [entry_remaining, PAGE_ALIGN32, PAGE_ALIGN, PAGE_SIZE] at *
  split <;> omega

/-! ### Generic list helpers -/
theorem list_set_self {α : Type} (l : List α) (i : Nat) (a : α)
    (h : l[i]? = some a) : l.set i a = l := by
  induction l generalizing i with
  | nil => rfl
  | cons x xs ih =>
    cases i with
    | zero => simp_all
    | succ n => simp_all [List.set]

theorem list_mem_set {α : Type} {x b : α} {l : List α} {i : Nat}
    (h : x ∈ l.set i b) : x = b ∨ x ∈ l := by
  induction l generalizing i with
  | nil => simp [List.set] at h
  | cons y ys ih =>
    cases i with
    | zero =>
      rcases List.mem_cons.mp h with h | h
      · exact Or.inl h
      · exact Or.inr (List.mem_cons_of_mem _ h)
    | succ n =>
      rcases List.mem_cons.mp h with h | h
      · exact Or.inr (h ▸ List.mem_cons_self _ _)
      · rcases ih h with h | h
        · exact Or.inl h
        · exact Or.inr (List.mem_cons_of_mem _ h)

theorem list_map_set {α β : Type} (f : α → β) (l : List α) (i : Nat) (b : α) :
    (l.set i b).map f = (l.map f).set i (f b) := by
  induction l generalizing i with
  | nil => rfl
  | cons x xs ih =>
    cases i with
    | zero => rfl
    | succ n => simp [List.set, ih]

theorem sum_set_add (l : List Nat) (i : Nat) (a b : Nat)
    (h : l[i]? = some a) : (l.set i b).sum + a = l.sum + b := by
  induction l generalizing i with
  | nil => simp at h
  | cons x xs ih =>
    cases i with
    | zero =>
      simp at h
      subst h
      simp [List.set]
      omega
    | succ n =>
      simp at h
      have := ih n h
      simp [List.set]
      omega

theorem WF_length {st : HeapState} (h : WF st) : st.pools.length = num_orders := by
  have := congrArg List.length h
  simpa [num_orders] using this

theorem WF_pool_at {st : HeapState} (hwf : WF st) {o idx : Nat}
    (h : order_to_index o = some idx) :
    ∃ pool, st.pools[idx]? = some pool ∧ pool.order = o := by
  have hg : orders[idx]? = some o := orders_get_of_index h
  rw [← hwf] at hg
  rw [List.getElem?_map] at hg
  cases hp : st.pools[idx]? with
  | none => rw [hp] at hg; simp at hg
  | some pool =>
    rw [hp] at hg
    simp at hg
    exact ⟨pool, rfl, hg⟩

/-! ### Host and pool operation lemmas -/
theorem alloc_pages_host (g : GfpKind) (o : Nat) (h : Host) :
    (alloc_pages g o h).2.freed = h.freed ∧
    (alloc_pages g o h).2.kalloc_ok = h.kalloc_ok ∧
    (alloc_pages g o h).2.alloc_log = h.alloc_log ++ [(g, o)] := by
  obtain ⟨nid, av, ka, al, fr⟩ := h
  unfold alloc_pages
  cases av with
  | nil => simp
  | cons a rest => cases a <;> simp

theorem alloc_pages_cases (g : GfpKind) (o : Nat) (h : Host) :
    ((alloc_pages g o h).1 = none ∧ (alloc_pages g o h).2.next_id = h.next_id) ∨
    (∃ pg, (alloc_pages g o h).1 = some pg ∧
      (alloc_pages g o h).2.next_id = h.next_id + (1 <<< o) ∧
      pg.order = 0 ∧ pg.from_pool = false ∧ pg.zeroed = false) := by
  obtain ⟨nid, av, ka, al, fr⟩ := h
  unfold alloc_pages
  cases av with
  | nil => left; simp
  | cons a rest =>
    cases a with
    | none => left; simp
    | some hi =>
      right
      exact ⟨{ id := nid, high := hi, zeroed := false, order := 0, from_pool := false },
        by simp, by simp, rfl, rfl, rfl⟩

theorem kalloc_attempt_host (h : Host) :
    (kalloc_attempt h).2.freed = h.freed ∧ (kalloc_attempt h).2.next_id = h.next_id ∧
    (kalloc_attempt h).2.alloc_log = h.alloc_log ∧ (kalloc_attempt h).2.avail = h.avail := by
  obtain ⟨nid, av, ka, al, fr⟩ := h
  unfold kalloc_attempt
  cases ka <;> simp

theorem pool_empty_of_count {pool : IonPagePool}
    (h : pool.high_count + pool.low_count = 0) :
    pool.high_items = [] ∧ pool.low_items = [] := by
  unfold IonPagePool.high_count IonPagePool.low_count at h
  constructor
  · exact List.length_eq_zero.mp (by omega)
  · exact List.length_eq_zero.mp (by omega)

theorem pool_alloc_nonempty (pool : IonPagePool) (h : Host)
    (hne : 0 < pool.high_count + pool.low_count) :
    ∃ pg pool', ion_page_pool_alloc pool h = (some pg, pool', h) ∧
      pool'.order = pool.order ∧ pool'.gfp = pool.gfp ∧
      pool'.high_count + pool'.low_count + 1 = pool.high_count + pool.low_count := by
  obtain ⟨o, g, hi, lo⟩ := pool
  unfold ion_page_pool_alloc
  cases hi with
  | cons p rest =>
    exact ⟨p, _, rfl, rfl, rfl, by
      simp [IonPagePool.high_count, IonPagePool.low_count] <;> omega⟩
  | nil =>
    cases lo with
    | nil => simp [IonPagePool.high_count, IonPagePool.low_count] at hne
    | cons p rest =>
      exact ⟨p, _, rfl, rfl, rfl, by
        simp [IonPagePool.high_count, IonPagePool.low_count] <;> omega⟩

theorem pool_alloc_empty (pool : IonPagePool) (h : Host)
    (h1 : pool.high_items = []) (h2 : pool.low_items = []) :
    ion_page_pool_alloc pool h =
      ((alloc_pages pool.gfp pool.order h).1, pool,
        (alloc_pages pool.gfp pool.order h).2) := by
  obtain ⟨o, g, hi, lo⟩ := pool
  simp only at h1 h2
  subst h1; subst h2
  rfl

theorem pool_free_counts (pool : IonPagePool) (pg : Page) :
    (ion_page_pool_free pool pg).order = pool.order ∧
    (ion_page_pool_free pool pg).gfp = pool.gfp ∧
    (ion_page_pool_free pool pg).high_count + (ion_page_pool_free pool pg).low_count
      = pool.high_count + pool.low_count + 1 := by
  unfold ion_page_pool_free
  cases hpg : pg.high <;>
    simp [IonPagePool.high_count, IonPagePool.low_count] <;> omega

theorem pool_free_mem {pool : IonPagePool} {pg q : Page}
    (h : q ∈ (ion_page_pool_free pool pg).high_items ++
          (ion_page_pool_free pool pg).low_items) :
    q = pg ∨ q ∈ pool.high_items ++ pool.low_items := by
  unfold ion_page_pool_free at h
  cases hpg : pg.high <;> rw [hpg] at h <;> simp at h ⊢ <;> tauto

theorem shiftLeft_add_distrib (a b o : Nat) : (a + b) <<< o = a <<< o + b <<< o := by
  simp [Nat.shiftLeft_eq, Nat.add_mul]

theorem held_set (st : HeapState) (idx : Nat) (pool pool' : IonPagePool)
    (hp : st.pools[idx]? = some pool) :
    ((st.pools.set idx pool').map poolPages).sum + poolPages pool
      = (st.pools.map poolPages).sum + poolPages pool' := by
  rw [list_map_set]
  apply sum_set_add
  rw [List.getElem?_map, hp]
  rfl

theorem WF_set {st : HeapState} {idx : Nat} {pool pool' : IonPagePool}
    (hwf : WF st) (hp : st.pools[idx]? = some pool) (ho : pool'.order = pool.order) :
    (st.pools.set idx pool').map IonPagePool.order = orders := by
  rw [list_map_set, ho]
  rw [list_set_self]
  · exact hwf
  · rw [List.getElem?_map, hp]
    rfl

/-! ### Shape lemmas for `alloc_buffer_page` / `free_buffer_page` -/
theorem alloc_buffer_page_noncached_eq (st : HeapState) (flags : IonFlags)
    (o idx : Nat) (pool : IonPagePool)
    (hc : flags.cached = false) (hidx : order_to_index o = some idx)
    (hp : st.pools[idx]? = some pool) :
    alloc_buffer_page st flags o =
      ((ion_page_pool_alloc pool st.host).1,
       { st with pools := st.pools.set idx (ion_page_pool_alloc pool st.host).2.1,
                 host := (ion_page_pool_alloc pool st.host).2.2 }) := by
  simp only [alloc_buffer_page, hidx, hc, hp, Bool.not_false, if_true]

theorem alloc_buffer_page_cached_eq (st : HeapState) (flags : IonFlags)
    (o idx : Nat) (hc : flags.cached = true) (hidx : order_to_index o = some idx) :
    alloc_buffer_page st flags o =
      ((alloc_pages (if o > 0 then GfpKind.highOrder else GfpKind.lowOrder) o st.host).1,
       { st with
          host := (alloc_pages (if o > 0 then GfpKind.highOrder else GfpKind.lowOrder)
            o st.host).2 }) := by
  simp only [alloc_buffer_page, hidx, hc, Bool.not_true, Bool.false_eq_true,
    if_false]

theorem free_buffer_page_pool_eq (st : HeapState) (flags : IonFlags) (pg : Page)
    (o idx : Nat) (pool : IonPagePool)
    (hc : flags.cached = false) (hidx : order_to_index o = some idx)
    (hp : st.pools[idx]? = some pool) :
    free_buffer_page st flags pg o =
      { st with pools := st.pools.set idx (ion_page_pool_free pool pg) } := by
  simp only [free_buffer_page, hc, hidx, hp, Bool.not_false, if_true]

theorem free_buffer_page_cached_eq (st : HeapState) (flags : IonFlags) (pg : Page)
    (o : Nat) (hc : flags.cached = true) :
    free_buffer_page st flags pg o =
      (if flags.fault_user_mappings then
        { st with host := { st.host with freed := st.host.freed ++
            ((List.range (1 <<< o)).map (fun i => ({ pg with id := pg.id + i }, 0))) } }
       else
        { st with host := { st.host with freed := st.host.freed ++ [(pg, o)] } }) := by
  simp only [free_buffer_page, hc, Bool.not_true, Bool.false_eq_true, if_false]

theorem poolPages_pop {pool pool' : IonPagePool} (ho : pool'.order = pool.order)
    (hc : pool'.high_count + pool'.low_count + 1 = pool.high_count + pool.low_count) :
    poolPages pool' + 1 <<< pool.order = poolPages pool := by
  unfold poolPages
  rw [ho, ← hc]
  simp only [shiftLeft_add_distrib]

theorem poolPages_push (pool : IonPagePool) (pg : Page) :
    poolPages (ion_page_pool_free pool pg) = poolPages pool + 1 <<< pool.order := by
  obtain ⟨ho, hg, hcnt⟩ := pool_free_counts pool pg
  unfold poolPages
  rw [ho, hcnt, shiftLeft_add_distrib]

theorem sum_map_one {α : Type} (l : List α) : (l.map (fun _ => 1)).sum = l.length := by
  induction l with
  | nil => rfl
  | cons x xs ih => simp [ih]; omega

/-- Consolidated effects of `alloc_buffer_page` at a valid order on a
well-formed state: well-formedness, the `BUG()` flag, the zero log, the
host free log and the kmalloc oracle are untouched; a successful attempt
accounts `2^o` pages drawn from pool or host; a failed attempt leaves
pools and the fresh-page counter unchanged. -/
theorem alloc_buffer_page_spec (st : HeapState) (flags : IonFlags) (o idx : Nat)
    (hwf : WF st) (hidx : order_to_index o = some idx) :
    WF (alloc_buffer_page st flags o).2 ∧
    (alloc_buffer_page st flags o).2.bugged = st.bugged ∧
    (alloc_buffer_page st flags o).2.zero_log = st.zero_log ∧
    (alloc_buffer_page st flags o).2.host.freed = st.host.freed ∧
    (alloc_buffer_page st flags o).2.host.kalloc_ok = st.host.kalloc_ok ∧
    ((alloc_buffer_page st flags o).1 ≠ none →
        balance (alloc_buffer_page st flags o).2 + 1 <<< o + st.host.next_id
          = balance st + (alloc_buffer_page st flags o).2.host.next_id) ∧
    ((alloc_buffer_page st flags o).1 = none →
        (alloc_buffer_page st flags o).2.pools = st.pools ∧
        (alloc_buffer_page st flags o).2.host.next_id = st.host.next_id) := by
  cases hc : flags.cached
  case false =>
    obtain ⟨pool, hp, hpo⟩ := WF_pool_at hwf hidx
    subst hpo
    have hwf2 : List.map IonPagePool.order st.pools = orders := hwf
    rw [alloc_buffer_page_noncached_eq st flags pool.order idx pool hc hidx hp]
    rcases Nat.eq_zero_or_pos (pool.high_count + pool.low_count) with hcnt | hcnt
    · obtain ⟨h1, h2⟩ := pool_empty_of_count hcnt
      have hset : st.pools.set idx pool = st.pools := list_set_self _ _ _ hp
      have he := pool_alloc_empty pool st.host h1 h2
      obtain ⟨haf, hak, _⟩ := alloc_pages_host pool.gfp pool.order st.host
      rcases alloc_pages_cases pool.gfp pool.order st.host with ⟨hn, hnid⟩ |
        ⟨pg, hs, hnid, _⟩
      · refine ⟨?_, ?_, ?_, ?_, ?_, ?_, ?_⟩ <;>
          simp [WF, he, hset, haf, hak, hn, hnid, hwf2]
      · refine ⟨?_, ?_, ?_, ?_, ?_, ?_, ?_⟩
        · simp only [WF, he, hset]; exact hwf
        · simp [he]
        · simp [he]
        · simp [he, haf]
        · simp [he, hak]
        · intro _
          simp only [he, balance, held, hostFreed, hset, haf, hnid]
          omega
        · intro hcontra
          simp only [he, hs] at hcontra
          exact Option.noConfusion hcontra
    · obtain ⟨pg, pool', heq, ho', hg', hcnt'⟩ := pool_alloc_nonempty pool st.host hcnt
      have hwfs := WF_set hwf hp ho'
      have hheld := held_set st idx pool pool' hp
      have hpop := poolPages_pop ho' hcnt'
      refine ⟨?_, ?_, ?_, ?_, ?_, ?_, ?_⟩
      · simp only [WF, heq]; exact hwfs
      · simp [heq]
      · simp [heq]
      · simp [heq]
      · simp [heq]
      · intro _
        simp only [heq, balance, held, hostFreed]
        omega
      · intro hcontra
        simp only [heq] at hcontra
        exact Option.noConfusion hcontra
  case true =>
    have hwf2 : List.map IonPagePool.order st.pools = orders := hwf
    rw [alloc_buffer_page_cached_eq st flags o idx hc hidx]
    obtain ⟨haf, hak, _⟩ :=
      alloc_pages_host (if o > 0 then GfpKind.highOrder else GfpKind.lowOrder) o st.host
    rcases alloc_pages_cases (if o > 0 then GfpKind.highOrder else GfpKind.lowOrder)
      o st.host with ⟨hn, hnid⟩ | ⟨pg, hs, hnid, _⟩
    · refine ⟨?_, ?_, ?_, ?_, ?_, ?_, ?_⟩ <;>
        simp [WF, haf, hak, hn, hnid, hwf2]
    · refine ⟨?_, ?_, ?_, ?_, ?_, ?_, ?_⟩
      · exact hwf
      · rfl
      · rfl
      · exact haf
      · exact hak
      · intro _
        simp only [balance, held, hostFreed, haf, hnid]
        omega
      · intro hcontra
        simp only [hs] at hcontra
        exact Option.noConfusion hcontra

/-- Consolidated effects of `free_buffer_page` at a valid order on a
well-formed state: well-formedness and the host oracle bookkeeping are
preserved, no `BUG()` is reached, and exactly `2^o` pages move into the
pools-plus-host-freed account. -/
theorem free_buffer_page_spec (st : HeapState) (flags : IonFlags) (pg : Page)
    (o idx : Nat) (hwf : WF st) (hidx : order_to_index o = some idx) :
    WF (free_buffer_page st flags pg o) ∧
    (free_buffer_page st flags pg o).bugged = st.bugged ∧
    (free_buffer_page st flags pg o).zero_log = st.zero_log ∧
    (free_buffer_page st flags pg o).host.next_id = st.host.next_id ∧
    (free_buffer_page st flags pg o).host.kalloc_ok = st.host.kalloc_ok ∧
    (free_buffer_page st flags pg o).host.avail = st.host.avail ∧
    balance (free_buffer_page st flags pg o) = balance st + 1 <<< o := by
  cases hc : flags.cached
  case false =>
    obtain ⟨pool, hp, hpo⟩ := WF_pool_at hwf hidx
    subst hpo
    rw [free_buffer_page_pool_eq st flags pg pool.order idx pool hc hidx hp]
    refine ⟨WF_set hwf hp (pool_free_counts pool pg).1, rfl, rfl, rfl, rfl, rfl, ?_⟩
    have h1 := held_set st idx pool (ion_page_pool_free pool pg) hp
    have h2 := poolPages_push pool pg
    simp only [balance, held, hostFreed]
    omega
  case true =>
    rw [free_buffer_page_cached_eq st flags pg o hc]
    cases hs : flags.fault_user_mappings
    · rw [if_neg Bool.false_ne_true]
      refine ⟨hwf, rfl, rfl, rfl, rfl, rfl, ?_⟩
      simp [balance, held, hostFreed]
      omega
    · rw [if_pos rfl]
      refine ⟨hwf, rfl, rfl, rfl, rfl, rfl, ?_⟩
      simp only [balance, held, hostFreed, List.map_append, List.sum_append,
        List.map_map]
      have h1 : ((fun (e : Page × Nat) => 1 <<< e.2) ∘
          fun i => (({ pg with id := pg.id + i } : Page), (0 : Nat))) = fun _ => 1 := by
        funext i
        simp
      rw [h1, sum_map_one, List.length_range]
      omega

/-- Frame: `free_buffer_page` never touches the zero log, the fresh-page
counter, or the rest of the host oracle, in any branch. -/
theorem free_buffer_page_frame (st : HeapState) (flags : IonFlags) (pg : Page)
    (o : Nat) :
    (free_buffer_page st flags pg o).zero_log = st.zero_log ∧
    (free_buffer_page st flags pg o).host.next_id = st.host.next_id ∧
    (free_buffer_page st flags pg o).host.kalloc_ok = st.host.kalloc_ok ∧
    (free_buffer_page st flags pg o).host.avail = st.host.avail := by
  unfold free_buffer_page
  split
  · split
    · exact ⟨rfl, rfl, rfl, rfl⟩
    · split
      · exact ⟨rfl, rfl, rfl, rfl⟩
      · exact ⟨rfl, rfl, rfl, rfl⟩
  · split
    · exact ⟨rfl, rfl, rfl, rfl⟩
    · exact ⟨rfl, rfl, rfl, rfl⟩

/-- Every pool resident after a `free_buffer_page` was already resident
or is the page just freed. -/
theorem free_buffer_page_residents {st : HeapState} {flags : IonFlags} {pg q : Page}
    {o : Nat} (h : q ∈ poolResidents (free_buffer_page st flags pg o)) :
    q ∈ poolResidents st ∨ q = pg := by
  unfold free_buffer_page at h
  split at h
  · split at h
    · exact Or.inl h
    · split at h
      · exact Or.inl h
      · rename_i pool hp
        simp only [poolResidents, List.mem_flatMap] at h ⊢
        obtain ⟨p, hmem, hq⟩ := h
        rcases list_mem_set hmem with rfl | hmem'
        · rcases pool_free_mem hq with h | h
          · exact Or.inr h
          · left
            refine ⟨pool, ?_, h⟩
            obtain ⟨hlt, hg⟩ := List.getElem?_eq_some.mp hp
            exact hg ▸ List.getElem_mem hlt
        · exact Or.inl ⟨p, hmem', hq⟩
  · split at h
    · exact Or.inl h
    · exact Or.inl h

/-- Consolidated facts about the order scan of `alloc_largest_available`
on a well-formed state: preservation of well-formedness and of all state
the scan does not touch; a successful scan returns a run whose order is
in the order set, fits in `size`, respects the cap, and accounts `2^o`
pages; a failed scan leaves pools and the fresh-page counter unchanged. -/
theorem alloc_largest_go_spec (flags : IonFlags) (size mo : Nat) (L : List Nat)
    (st : HeapState) (fp : Bool) (hL : ∀ o ∈ L, o ∈ orders) (hwf : WF st) :
    WF (alloc_largest_go flags size mo st fp L).2 ∧
    (alloc_largest_go flags size mo st fp L).2.bugged = st.bugged ∧
    (alloc_largest_go flags size mo st fp L).2.zero_log = st.zero_log ∧
    (alloc_largest_go flags size mo st fp L).2.host.freed = st.host.freed ∧
    (alloc_largest_go flags size mo st fp L).2.host.kalloc_ok = st.host.kalloc_ok ∧
    (∀ pg, (alloc_largest_go flags size mo st fp L).1 = some pg →
       pg.order ∈ orders ∧ order_to_size pg.order ≤ size ∧ pg.order ≤ mo ∧
       balance (alloc_largest_go flags size mo st fp L).2 + 1 <<< pg.order
           + st.host.next_id
         = balance st + (alloc_largest_go flags size mo st fp L).2.host.next_id) ∧
    ((alloc_largest_go flags size mo st fp L).1 = none →
       (alloc_largest_go flags size mo st fp L).2.pools = st.pools ∧
       (alloc_largest_go flags size mo st fp L).2.host.next_id = st.host.next_id ∧
       balance (alloc_largest_go flags size mo st fp L).2 = balance st) := by
  induction L generalizing st fp with
  | nil =>
    refine ⟨hwf, rfl, rfl, rfl, rfl, ?_, ?_⟩
    · intro pg hpg
      exact Option.noConfusion hpg
    · intro _
      exact ⟨rfl, rfl, rfl⟩
  | cons o rest ih =>
    have ho : o ∈ orders := hL o (List.mem_cons_self _ _)
    have hLr : ∀ o' ∈ rest, o' ∈ orders := fun o' h => hL o' (List.mem_cons_of_mem _ h)
    by_cases h1 : size < order_to_size o
    · rw [show alloc_largest_go flags size mo st fp (o :: rest)
          = alloc_largest_go flags size mo st fp rest by
        rw [alloc_largest_go]
        rw [if_pos h1]]
      exact ih st fp hLr hwf
    · by_cases h2 : mo < o
      · rw [show alloc_largest_go flags size mo st fp (o :: rest)
            = alloc_largest_go flags size mo st fp rest by
          rw [alloc_largest_go]
          rw [if_neg h1, if_pos h2]]
        exact ih st fp hLr hwf
      · obtain ⟨idx, hidx⟩ := order_to_index_of_mem ho
        obtain ⟨pool, hp, hpo⟩ := WF_pool_at hwf hidx
        have hshape : ∃ fp' : Bool,
            ((alloc_buffer_page st flags o).1 = none →
              alloc_largest_go flags size mo st fp (o :: rest)
                = alloc_largest_go flags size mo (alloc_buffer_page st flags o).2
                    fp' rest) ∧
            (∀ pg, (alloc_buffer_page st flags o).1 = some pg →
              alloc_largest_go flags size mo st fp (o :: rest)
                = (some (if fp' then { pg with order := o, from_pool := true }
                         else { pg with order := o }),
                   (alloc_buffer_page st flags o).2)) := by
          cases hcc : flags.cached
          · refine ⟨fp || decide (pool.high_count > 0) || decide (pool.low_count > 0),
              ?_, ?_⟩
            · intro hr
              rw [alloc_largest_go, if_neg h1, if_neg h2]
              simp [hcc, hidx, hp, hr]
            · intro pg hr
              rw [alloc_largest_go, if_neg h1, if_neg h2]
              simp [hcc, hidx, hp, hr]
          · refine ⟨fp, ?_, ?_⟩
            · intro hr
              rw [alloc_largest_go, if_neg h1, if_neg h2]
              simp [hcc, hidx, hp, hr]
            · intro pg hr
              rw [alloc_largest_go, if_neg h1, if_neg h2]
              simp [hcc, hidx, hp, hr]
        obtain ⟨fp', hgoN, hgoS⟩ := hshape
        have spec := alloc_buffer_page_spec st flags o idx hwf hidx
        obtain ⟨swf, sbug, szl, sfr, ska, ssome, snone⟩ := spec
        cases hr : (alloc_buffer_page st flags o).1 with
        | none =>
          rw [hgoN hr]
          obtain ⟨npools, nnid⟩ := snone hr
          have hbal0 : balance (alloc_buffer_page st flags o).2 = balance st := by
            simp only [balance, held, hostFreed, npools, sfr]
          obtain ⟨iwf, ibug, izl, ifr, ika, isome, inone⟩ :=
            ih (alloc_buffer_page st flags o).2 fp' hLr swf
          refine ⟨iwf, ibug.trans sbug, izl.trans szl, ifr.trans sfr,
            ika.trans ska, ?_, ?_⟩
          · intro pg hpg
            obtain ⟨io, isz, imo, ibal⟩ := isome pg hpg
            refine ⟨io, isz, imo, ?_⟩
            rw [hbal0, nnid] at ibal
            exact ibal
          · intro hn
            obtain ⟨ipools, inid, ibal⟩ := inone hn
            exact ⟨ipools.trans npools, inid.trans nnid, ibal.trans hbal0⟩
        | some pg =>
          rw [hgoS pg hr]
          have hbal := ssome (by rw [hr]; exact fun hcon => Option.noConfusion hcon)
          refine ⟨swf, sbug, szl, sfr, ska, ?_, ?_⟩
          · intro pg' hpg'
            simp only [Option.some.injEq] at hpg'
            subst hpg'
            have hord : (if fp' then { pg with order := o, from_pool := true }
                else { pg with order := o } : Page).order = o := by
              cases fp' <;> rfl
            refine ⟨?_, ?_, ?_, ?_⟩
            · rw [hord]
              exact ho
            · rw [hord]
              omega
            · rw [hord]
              omega
            · rw [hord]
              exact hbal
          · intro hn
            exact Option.noConfusion hn

/-- Wrapper: `alloc_largest_available` instantiates the scan at the full order
set with the `from_pool` accumulator cleared. -/
theorem alloc_largest_available_spec (st : HeapState) (flags : IonFlags)
    (size mo : Nat) (hwf : WF st) :
    WF (alloc_largest_available st flags size mo).2 ∧
    (alloc_largest_available st flags size mo).2.bugged = st.bugged ∧
    (alloc_largest_available st flags size mo).2.zero_log = st.zero_log ∧
    (alloc_largest_available st flags size mo).2.host.freed = st.host.freed ∧
    (alloc_largest_available st flags size mo).2.host.kalloc_ok
      = st.host.kalloc_ok ∧
    (∀ pg, (alloc_largest_available st flags size mo).1 = some pg →
       pg.order ∈ orders ∧ order_to_size pg.order ≤ size ∧ pg.order ≤ mo ∧
       balance (alloc_largest_available st flags size mo).2 + 1 <<< pg.order
           + st.host.next_id
         = balance st + (alloc_largest_available st flags size mo).2.host.next_id) ∧
    ((alloc_largest_available st flags size mo).1 = none →
       (alloc_largest_available st flags size mo).2.pools = st.pools ∧
       (alloc_largest_available st flags size mo).2.host.next_id
         = st.host.next_id ∧
       balance (alloc_largest_available st flags size mo).2 = balance st) :=
  alloc_largest_go_spec flags size mo orders st false (fun _ h => h) hwf

theorem nonIncreasing_cons (a : Nat) (l : List Nat)
    (h1 : ∀ b ∈ l, b ≤ a) (h2 : nonIncreasing l = true) :
    nonIncreasing (a :: l) = true := by
  cases l with
  | nil => rfl
  | cons b r =>
    have hb : b ≤ a := h1 b (List.mem_cons_self _ _)
    simp [nonIncreasing, hb, h2]

theorem pagesOf_cons (pg : Page) (l : List Page) :
    pagesOf (pg :: l) = 1 <<< pg.order + pagesOf l := by
  simp [pagesOf]

/-- Consolidated invariant of the packing loop: preservation of
well-formedness and untouched state; every collected run has an order
from the order set bounded by the entry cap; the collected orders are
non-increasing; pages are conserved (pools + host-freed + collected
runs against fresh pages obtained); on success the collected runs
cover `remaining` exactly and are non-empty when `remaining > 0`. -/
theorem pack_go_spec (flags : IonFlags) (fuel : Nat) :
    ∀ (st : HeapState) (remaining mo : Nat), WF st →
    WF (pack_go flags fuel st remaining mo).2 ∧
    (pack_go flags fuel st remaining mo).2.bugged = st.bugged ∧
    (pack_go flags fuel st remaining mo).2.zero_log = st.zero_log ∧
    (pack_go flags fuel st remaining mo).2.host.freed = st.host.freed ∧
    (pack_go flags fuel st remaining mo).2.host.kalloc_ok = st.host.kalloc_ok ∧
    (∀ pg ∈ (pack_go flags fuel st remaining mo).1.2,
       pg.order ∈ orders ∧ pg.order ≤ mo) ∧
    nonIncreasing ((pack_go flags fuel st remaining mo).1.2.map
      (fun pg => pg.order)) = true ∧
    (balance (pack_go flags fuel st remaining mo).2
        + pagesOf (pack_go flags fuel st remaining mo).1.2 + st.host.next_id
      = balance st + (pack_go flags fuel st remaining mo).2.host.next_id) ∧
    ((pack_go flags fuel st remaining mo).1.1 = true →
       ((pack_go flags fuel st remaining mo).1.2.map
         (fun pg => order_to_size pg.order)).sum = remaining) ∧
    ((pack_go flags fuel st remaining mo).1.1 = true → 0 < remaining →
       (pack_go flags fuel st remaining mo).1.2 ≠ []) := by
  induction fuel with
  | zero =>
    intro st remaining mo hwf
    refine ⟨hwf, rfl, rfl, rfl, rfl, ?_, rfl, ?_, ?_, ?_⟩
    · intro pg hpg
      simp [pack_go] at hpg
    · simp [pack_go, pagesOf]
    · intro hok
      simp [pack_go] at hok
      simp [pack_go, hok]
    · intro hok hrem
      simp [pack_go] at hok
      omega
  | succ fuel ihf =>
    intro st remaining mo hwf
    by_cases hrem : remaining = 0
    · have hgo : pack_go flags (fuel + 1) st remaining mo = ((true, []), st) := by
        rw [pack_go, if_pos hrem]
      rw [hgo]
      refine ⟨hwf, rfl, rfl, rfl, rfl, ?_, rfl, ?_, ?_, ?_⟩
      · intro pg hpg
        simp at hpg
      · simp [pagesOf]
      · intro _
        simp [hrem]
      · intro _ hpos
        omega
    · obtain ⟨hswf, hsbug, hszl, hsfr, hska, hssome, hsnone⟩ :=
        alloc_largest_available_spec st flags remaining mo hwf
      have heta : alloc_largest_available st flags remaining mo
          = ((alloc_largest_available st flags remaining mo).1,
             (alloc_largest_available st flags remaining mo).2) := rfl
      cases hp1 : (alloc_largest_available st flags remaining mo).1 with
      | none =>
        have hgo : pack_go flags (fuel + 1) st remaining mo
            = ((false, []), (alloc_largest_available st flags remaining mo).2) := by
          rw [pack_go, if_neg hrem, heta, hp1]
        rw [hgo]
        obtain ⟨npools, nnid, nbal⟩ := hsnone hp1
        refine ⟨hswf, hsbug, hszl, hsfr, hska, ?_, rfl, ?_, ?_, ?_⟩
        · intro pg hpg
          simp at hpg
        · simp only [pagesOf, List.map_nil, List.sum_nil]
          omega
        · intro hok
          exact Bool.noConfusion hok
        · intro hok
          exact Bool.noConfusion hok
      | some pg =>
        obtain ⟨hord, hsz, hmo, hbal⟩ := hssome pg hp1
        have hgo : pack_go flags (fuel + 1) st remaining mo
            = ((((pack_go flags fuel (alloc_largest_available st flags remaining mo).2
                  (remaining - order_to_size pg.order) pg.order).1.1,
                pg :: (pack_go flags fuel
                  (alloc_largest_available st flags remaining mo).2
                  (remaining - order_to_size pg.order) pg.order).1.2)),
               (pack_go flags fuel (alloc_largest_available st flags remaining mo).2
                 (remaining - order_to_size pg.order) pg.order).2) := by
          rw [pack_go, if_neg hrem, heta, hp1]
        rw [hgo]
        simp only []
        obtain ⟨iwf, ibug, izl, ifr, ika, imem, iinc, ibal, isum, ine⟩ :=
          ihf (alloc_largest_available st flags remaining mo).2
            (remaining - order_to_size pg.order) pg.order hswf
        refine ⟨iwf, ibug.trans hsbug, izl.trans hszl, ifr.trans hsfr,
          ika.trans hska, ?_, ?_, ?_, ?_, ?_⟩
        · intro q hq
          rcases List.mem_cons.mp hq with rfl | hq'
          · exact ⟨hord, hmo⟩
          · obtain ⟨h1, h2⟩ := imem q hq'
            exact ⟨h1, h2.trans hmo⟩
        · rw [List.map_cons]
          apply nonIncreasing_cons
          · intro b hb
            obtain ⟨q, hq, rfl⟩ := List.mem_map.mp hb
            exact (imem q hq).2
          · exact iinc
        · rw [pagesOf_cons]
          omega
        · intro hok
          have := isum hok
          rw [List.map_cons, List.sum_cons]
          omega
        · intro _ _
          simp

theorem sum_map_const {α : Type} (l : List α) (c : Nat) :
    (l.map (fun _ => c)).sum = l.length * c := by
  induction l with
  | nil => simp
  | cons x xs ih =>
    simp [ih]
    ring

theorem sg_entries_sum (split : Bool) (pages : List Page) :
    ((sg_entries split pages).map (fun e => e.length)).sum
      = (pages.map (fun pg => order_to_size pg.order)).sum := by
  cases split
  · have he : sg_entries false pages = pages.map (fun pg =>
        ({ page := { pg with order := 0, from_pool := false },
           length := (1 <<< pg.order) * PAGE_SIZE } : Scatterlist)) := rfl
    rw [he, List.map_map]
    congr 1
    apply List.map_congr_left
    intro pg _
    simp [order_to_size_eq]
  · have he : sg_entries true pages = pages.flatMap (fun pg =>
        (List.range (1 <<< pg.order)).map (fun i =>
          ({ page := { pg with id := pg.id + i, order := 0, from_pool := false },
             length := PAGE_SIZE } : Scatterlist))) := rfl
    rw [he]
    clear he
    induction pages with
    | nil => rfl
    | cons p ps ih =>
      simp only [List.flatMap_cons, List.map_append, List.sum_append,
        List.map_cons, List.sum_cons, List.map_map]
      rw [ih]
      congr 1
      have hc : ((fun (e : Scatterlist) => e.length) ∘ fun i =>
          ({ page := { p with id := p.id + i, order := 0, from_pool := false },
             length := PAGE_SIZE } : Scatterlist)) = fun _ => PAGE_SIZE := rfl
      rw [hc, sum_map_const, List.length_range, order_to_size_eq]

theorem sg_entries_ne_nil {split : Bool} {pages : List Page} (h : pages ≠ []) :
    sg_entries split pages ≠ [] := by
  cases pages with
  | nil => exact absurd rfl h
  | cons p ps =>
    cases split
    · simp [sg_entries]
    · have he : sg_entries true (p :: ps)
          = ((List.range (1 <<< p.order)).map fun i =>
              ({ page := { p with id := p.id + i, order := 0, from_pool := false },
                 length := PAGE_SIZE } : Scatterlist))
            ++ (ps.flatMap fun pg => (List.range (1 <<< pg.order)).map fun i =>
              ({ page := { pg with id := pg.id + i, order := 0, from_pool := false },
                 length := PAGE_SIZE } : Scatterlist)) := rfl
      rw [he]
      intro hcon
      rcases List.append_eq_nil.mp hcon with ⟨hl, _⟩
      rw [List.map_eq_nil, List.range_eq_nil, Nat.one_shiftLeft] at hl
      have hp2 : 0 < 2 ^ p.order := Nat.pos_pow_of_pos _ (by omega)
      omega

theorem sg_entries_orders (pages : List Page)
    (h : ∀ pg ∈ pages, pg.order ∈ orders) :
    (sg_entries false pages).map (fun e => get_order e.length)
      = pages.map (fun pg => pg.order) := by
  have he : sg_entries false pages = pages.map (fun pg =>
      ({ page := { pg with order := 0, from_pool := false },
         length := (1 <<< pg.order) * PAGE_SIZE } : Scatterlist)) := rfl
  rw [he, List.map_map]
  apply List.map_congr_left
  intro pg hpg
  exact get_order_order_to_size (h pg hpg)

theorem allocate_pack_fail (st : HeapState) (buffer : SysBuffer) (size : Nat)
    (h : (packResult st buffer size).1.1 = false) :
    ion_system_heap_allocate st buffer size =
      { ret := -ENOMEM, buffer := buffer,
        st := free_pages_list (packResult st buffer size).2 buffer.flags
          (packResult st buffer size).1.2 } := by
  simp only [packResult] at h
  simp only [ion_system_heap_allocate, packResult, h]
  simp

theorem allocate_kmalloc_fail (st : HeapState) (buffer : SysBuffer) (size : Nat)
    (h1 : (packResult st buffer size).1.1 = true)
    (h2 : (kalloc_attempt (packResult st buffer size).2.host).1 = false) :
    ion_system_heap_allocate st buffer size =
      { ret := -ENOMEM, buffer := buffer,
        st := free_pages_list
          { (packResult st buffer size).2 with
              host := (kalloc_attempt (packResult st buffer size).2.host).2 }
          buffer.flags (packResult st buffer size).1.2 } := by
  simp only [packResult] at h1 h2
  simp only [ion_system_heap_allocate, packResult, h1, h2]
  simp

theorem allocate_sg_fail (st : HeapState) (buffer : SysBuffer) (size : Nat)
    (h1 : (packResult st buffer size).1.1 = true)
    (h2 : (kalloc_attempt (packResult st buffer size).2.host).1 = true)
    (h3 : (kalloc_attempt
        (kalloc_attempt (packResult st buffer size).2.host).2).1 = false) :
    ion_system_heap_allocate st buffer size =
      { ret := -ENOMEM, buffer := buffer,
        st := free_pages_list
          { (packResult st buffer size).2 with
              host := (kalloc_attempt
                (kalloc_attempt (packResult st buffer size).2.host).2).2 }
          buffer.flags (packResult st buffer size).1.2 } := by
  simp only [packResult] at h1 h2 h3
  simp only [ion_system_heap_allocate, packResult, h1, h2, h3]
  simp

theorem allocate_success_eq (st : HeapState) (buffer : SysBuffer) (size : Nat)
    (h1 : (packResult st buffer size).1.1 = true)
    (h2 : (kalloc_attempt (packResult st buffer size).2.host).1 = true)
    (h3 : (kalloc_attempt
        (kalloc_attempt (packResult st buffer size).2.host).2).1 = true) :
    ion_system_heap_allocate st buffer size =
      { ret := 0,
        buffer := { buffer with
          priv_virt := some (sg_entries buffer.flags.fault_user_mappings
            (packResult st buffer size).1.2),
          ready := buffer.ready
            || (packResult st buffer size).1.2.all (fun pg => pg.from_pool)
            || buffer.flags.sync_force },
        st := { (packResult st buffer size).2 with
          host := (kalloc_attempt
            (kalloc_attempt (packResult st buffer size).2.host).2).2 } } := by
  simp only [packResult] at h1 h2 h3
  simp only [ion_system_heap_allocate, packResult, h1, h2, h3]
  simp

/-- The error-path unwind preserves well-formedness, the `BUG()` flag
and the fresh-page counter, and returns exactly the collected pages to
pools or host. -/
theorem free_pages_list_spec (flags : IonFlags) (pages : List Page) :
    ∀ (st : HeapState), WF st → (∀ pg ∈ pages, pg.order ∈ orders) →
    WF (free_pages_list st flags pages) ∧
    (free_pages_list st flags pages).bugged = st.bugged ∧
    (free_pages_list st flags pages).host.next_id = st.host.next_id ∧
    balance (free_pages_list st flags pages) = balance st + pagesOf pages := by
  induction pages with
  | nil =>
    intro st hwf _
    exact ⟨hwf, rfl, rfl, by simp [pagesOf, free_pages_list]⟩
  | cons pg rest ih =>
    intro st hwf hmem
    have ho := hmem pg (List.mem_cons_self _ _)
    obtain ⟨idx, hidx⟩ := order_to_index_of_mem ho
    have hgo : free_pages_list st flags (pg :: rest)
        = free_pages_list (free_buffer_page st flags
            { pg with order := 0, from_pool := false } pg.order) flags rest := rfl
    rw [hgo]
    obtain ⟨fwf, fbug, fzl, fnid, fka, fav, fbal⟩ :=
      free_buffer_page_spec st flags { pg with order := 0, from_pool := false }
        pg.order idx hwf hidx
    obtain ⟨iwf, ibug, inid, ibal⟩ :=
      ih _ fwf (fun q hq => hmem q (List.mem_cons_of_mem _ hq))
    refine ⟨iwf, ibug.trans fbug, inid.trans fnid, ?_⟩
    rw [pagesOf_cons, ibal, fbal]
    omega

theorem ENOMEM_ne_zero : -ENOMEM ≠ (0 : Int) := by decide

theorem balance_set_host (st : HeapState) (h' : Host)
    (hf : h'.freed = st.host.freed) :
    balance { st with host := h' } = balance st := by
  simp [balance, held, hostFreed, hf]

/-- Success analysis of `ion_system_heap_allocate`: a zero return means
the pack succeeded and both kernel allocations succeeded, and fixes the
result completely. -/
theorem allocate_success_cases (st : HeapState) (buffer : SysBuffer) (size : Nat)
    (res : AllocResult) (h : ion_system_heap_allocate st buffer size = res)
    (h0 : res.ret = 0) :
    (packResult st buffer size).1.1 = true ∧
    res.buffer = { buffer with
      priv_virt := some (sg_entries buffer.flags.fault_user_mappings
        (packResult st buffer size).1.2),
      ready := buffer.ready
        || (packResult st buffer size).1.2.all (fun pg => pg.from_pool)
        || buffer.flags.sync_force } := by
  by_cases c1 : (packResult st buffer size).1.1 = true
  · by_cases c2 : (kalloc_attempt (packResult st buffer size).2.host).1 = true
    · by_cases c3 : (kalloc_attempt
          (kalloc_attempt (packResult st buffer size).2.host).2).1 = true
      · rw [allocate_success_eq st buffer size c1 c2 c3] at h
        rw [← h]
        exact ⟨c1, rfl⟩
      · rw [allocate_sg_fail st buffer size c1 c2 (Bool.not_eq_true _ ▸ c3)] at h
        rw [← h] at h0
        exact absurd h0 ENOMEM_ne_zero
    · rw [allocate_kmalloc_fail st buffer size c1 (Bool.not_eq_true _ ▸ c2)] at h
      rw [← h] at h0
      exact absurd h0 ENOMEM_ne_zero
  · rw [allocate_pack_fail st buffer size (Bool.not_eq_true _ ▸ c1)] at h
    rw [← h] at h0
    exact absurd h0 ENOMEM_ne_zero

/-- C1 (amended): on a successful allocation of `size > 0` whose padded
size `PAGE_ALIGN size` is below `2^31` - so the signed 32-bit
`long size_remaining` starts positive and the packing loop runs - the
loop produced a non-empty run list and the scatter/gather entry byte
lengths sum to `PAGE_ALIGN size`.  The original claim, with no bound on
`size`, is refuted by `allocate_size_fidelity_counterexample`. -/
theorem allocate_size_fidelity (st : HeapState) (buffer : SysBuffer) (size : Nat)
    (res : AllocResult) (tbl : List Scatterlist)
    (hwf : WF st) (hpos : 0 < size) (hsmall : PAGE_ALIGN size < 2 ^ 31)
    (h : ion_system_heap_allocate st buffer size = res) (h0 : res.ret = 0)
    (ht : res.buffer.priv_virt = some tbl) :
    (packResult st buffer size).1.2 ≠ [] ∧ tbl ≠ [] ∧
    (tbl.map (fun e => e.length)).sum = PAGE_ALIGN size := by
  obtain ⟨hok, hbuf⟩ := allocate_success_cases st buffer size res h h0
  rw [hbuf] at ht
  simp only [Option.some.injEq] at ht
  obtain ⟨-, -, -, -, -, -, -, -, hsum, hne⟩ :=
    pack_go_spec buffer.flags (entry_remaining size / PAGE_SIZE) st (entry_remaining size)
      (orders.headD 0) hwf
  have hprr : pack_go buffer.flags (entry_remaining size / PAGE_SIZE) st (entry_remaining size)
      (orders.headD 0) = packResult st buffer size := rfl
  rw [hprr] at hsum hne
  have her : entry_remaining size = PAGE_ALIGN size := entry_remaining_small hsmall
  have hpages := hne hok (by rw [her]; exact PAGE_ALIGN_pos hpos)
  refine ⟨hpages, ?_, ?_⟩
  · rw [← ht]
    exact sg_entries_ne_nil hpages
  · rw [← ht, sg_entries_sum]
    rw [hsum hok]
    exact her

/-- C1 counterexample: the request size `2^31` is positive, yet on a
fresh heap `ion_system_heap_allocate` succeeds with an empty
scatter/gather table.  `PAGE_ALIGN` over the 32-bit `unsigned long`
yields `2^31`, which is non-positive as the signed 32-bit
`long size_remaining`, so `while (size_remaining > 0)` never runs a
body iteration; the entry lengths sum to `0`, not `PAGE_ALIGN (2^31)`,
refuting the claim as stated. -/
theorem allocate_size_fidelity_counterexample :
    0 < 2 ^ 31 ∧
    (ion_system_heap_allocate wSt wBuf (2 ^ 31)).ret = 0 ∧
    (ion_system_heap_allocate wSt wBuf (2 ^ 31)).buffer.priv_virt
      = some ([] : List Scatterlist) ∧
    ¬ (([] : List Scatterlist) ≠ [] ∧
        (([] : List Scatterlist).map (fun e => e.length)).sum
          = PAGE_ALIGN (2 ^ 31)) := by
  decide

/-- C4: on a successful allocation without `FAULT_USER_MAPPINGS`, the
orders reconstructed from the scatter/gather entry lengths are
non-increasing in table position. -/
theorem allocate_pack_monotone (st : HeapState) (buffer : SysBuffer) (size : Nat)
    (res : AllocResult) (tbl : List Scatterlist)
    (hwf : WF st)
    (hsp : buffer.flags.fault_user_mappings = false)
    (h : ion_system_heap_allocate st buffer size = res) (h0 : res.ret = 0)
    (ht : res.buffer.priv_virt = some tbl) :
    nonIncreasing (tbl.map (fun e => get_order e.length)) = true := by
  obtain ⟨hok, hbuf⟩ := allocate_success_cases st buffer size res h h0
  rw [hbuf] at ht
  simp only [Option.some.injEq] at ht
  obtain ⟨-, -, -, -, -, hmem, hinc, -, -, -⟩ :=
    pack_go_spec buffer.flags (entry_remaining size / PAGE_SIZE) st (entry_remaining size)
      (orders.headD 0) hwf
  have hprr : pack_go buffer.flags (entry_remaining size / PAGE_SIZE) st (entry_remaining size)
      (orders.headD 0) = packResult st buffer size := rfl
  rw [hprr] at hmem hinc
  rw [← ht, hsp]
  rw [sg_entries_orders _ (fun pg hpg => (hmem pg hpg).1)]
  exact hinc

/-- C5: on a successful allocation of a buffer whose readiness latch was
clear, readiness is latched exactly when `SYNC_FORCE` is set or every
packed run carried the `from_pool` label. -/
theorem allocate_readiness_latch (st : HeapState) (buffer : SysBuffer) (size : Nat)
    (res : AllocResult) (pages : List Page)
    (h : ion_system_heap_allocate st buffer size = res) (h0 : res.ret = 0)
    (hready : buffer.ready = false)
    (hp : (packResult st buffer size).1.2 = pages) :
    (res.buffer.ready = true ↔
      (buffer.flags.sync_force = true ∨
       pages.all (fun pg => pg.from_pool) = true)) := by
  obtain ⟨hok, hbuf⟩ := allocate_success_cases st buffer size res h h0
  rw [hbuf]
  simp only [hready, hp, Bool.false_or, Bool.or_eq_true]
  tauto

/-- C7: every failing `ion_system_heap_allocate` returns exactly
`-ENOMEM`, leaves the buffer untouched, and frees every collected run
back to a pool or the host (no page is leaked: pools plus host-returned
pages grow by exactly the fresh pages obtained during the call). -/
theorem allocate_failure_unwinds (st : HeapState) (buffer : SysBuffer) (size : Nat)
    (res : AllocResult) (hwf : WF st)
    (h : ion_system_heap_allocate st buffer size = res) (hne : res.ret ≠ 0) :
    res.ret = -ENOMEM ∧ res.buffer = buffer ∧
    balance res.st + st.host.next_id = balance st + res.st.host.next_id := by
  obtain ⟨pwf, -, -, pfr, -, pmem, -, pbal, -, -⟩ :=
    pack_go_spec buffer.flags (entry_remaining size / PAGE_SIZE) st (entry_remaining size)
      (orders.headD 0) hwf
  have hprr : pack_go buffer.flags (entry_remaining size / PAGE_SIZE) st (entry_remaining size)
      (orders.headD 0) = packResult st buffer size := rfl
  rw [hprr] at pwf pfr pmem pbal
  have hordmem : ∀ pg ∈ (packResult st buffer size).1.2, pg.order ∈ orders :=
    fun pg hpg => (pmem pg hpg).1
  by_cases c1 : (packResult st buffer size).1.1 = true
  · by_cases c2 : (kalloc_attempt (packResult st buffer size).2.host).1 = true
    · by_cases c3 : (kalloc_attempt
          (kalloc_attempt (packResult st buffer size).2.host).2).1 = true
      · rw [allocate_success_eq st buffer size c1 c2 c3] at h
        rw [← h] at hne
        exact absurd rfl hne
      · rw [allocate_sg_fail st buffer size c1 c2 (Bool.not_eq_true _ ▸ c3)] at h
        obtain ⟨kf1, kn1, -, -⟩ := kalloc_attempt_host (packResult st buffer size).2.host
        obtain ⟨kf2, kn2, -, -⟩ := kalloc_attempt_host
          (kalloc_attempt (packResult st buffer size).2.host).2
        set stk : HeapState := { (packResult st buffer size).2 with
          host := (kalloc_attempt
            (kalloc_attempt (packResult st buffer size).2.host).2).2 } with hstk
        have hkwf : WF stk := pwf
        have hkbal : balance stk = balance (packResult st buffer size).2 :=
          balance_set_host _ _ (kf2.trans kf1)
        obtain ⟨-, -, fnid, fbal⟩ :=
          free_pages_list_spec buffer.flags (packResult st buffer size).1.2 stk
            hkwf hordmem
        rw [← h]
        refine ⟨rfl, rfl, ?_⟩
        simp only []
        rw [fbal, hkbal]
        have hnidk : stk.host.next_id = (packResult st buffer size).2.host.next_id :=
          kn2.trans kn1
        rw [fnid, hnidk]
        omega
    · rw [allocate_kmalloc_fail st buffer size c1 (Bool.not_eq_true _ ▸ c2)] at h
      obtain ⟨kf1, kn1, -, -⟩ := kalloc_attempt_host (packResult st buffer size).2.host
      set stk : HeapState := { (packResult st buffer size).2 with
        host := (kalloc_attempt (packResult st buffer size).2.host).2 } with hstk
      have hkwf : WF stk := pwf
      have hkbal : balance stk = balance (packResult st buffer size).2 :=
        balance_set_host _ _ kf1
      obtain ⟨-, -, fnid, fbal⟩ :=
        free_pages_list_spec buffer.flags (packResult st buffer size).1.2 stk
          hkwf hordmem
      rw [← h]
      refine ⟨rfl, rfl, ?_⟩
      simp only []
      rw [fbal, hkbal, fnid]
      have hnidk : stk.host.next_id = (packResult st buffer size).2.host.next_id := kn1
      rw [hnidk]
      omega
  · rw [allocate_pack_fail st buffer size (Bool.not_eq_true _ ▸ c1)] at h
    obtain ⟨-, -, fnid, fbal⟩ :=
      free_pages_list_spec buffer.flags (packResult st buffer size).1.2
        (packResult st buffer size).2 pwf hordmem
    rw [← h]
    refine ⟨rfl, rfl, ?_⟩
    simp only []
    rw [fbal, fnid]
    omega

theorem pool_count_congr {st1 st2 : HeapState} (h : st1.pools = st2.pools)
    (i : Nat) : pool_count st1 i = pool_count st2 i := by
  simp [pool_count, h]

theorem pool_count_eq {st : HeapState} {idx : Nat} {pool : IonPagePool}
    (hp : st.pools[idx]? = some pool) :
    pool_count st idx = pool.high_count + pool.low_count := by
  simp [pool_count, hp]

/-- A non-cached `alloc_buffer_page` that refills from the host returns
a page without the `from_pool` bit. -/
theorem alloc_buffer_page_empty_from_pool (st : HeapState) (flags : IonFlags)
    (o idx : Nat) (pool : IonPagePool)
    (hc : flags.cached = false) (hidx : order_to_index o = some idx)
    (hp : st.pools[idx]? = some pool)
    (hcnt : pool.high_count + pool.low_count = 0) :
    ∀ pg, (alloc_buffer_page st flags o).1 = some pg → pg.from_pool = false := by
  rw [alloc_buffer_page_noncached_eq st flags o idx pool hc hidx hp]
  obtain ⟨h1, h2⟩ := pool_empty_of_count hcnt
  rw [pool_alloc_empty pool st.host h1 h2]
  intro pg hpg
  rcases alloc_pages_cases pool.gfp pool.order st.host with ⟨hn, -⟩ |
    ⟨pg0, hs, -, -, hfp, -⟩
  · rw [hn] at hpg
    exact Option.noConfusion hpg
  · rw [hs] at hpg
    have hpg0 : pg0 = pg := by simpa using hpg
    rw [← hpg0]
    exact hfp

/-- A non-cached `alloc_buffer_page` on a non-empty pool succeeds. -/
theorem alloc_buffer_page_nonempty_some (st : HeapState) (flags : IonFlags)
    (o idx : Nat) (pool : IonPagePool)
    (hc : flags.cached = false) (hidx : order_to_index o = some idx)
    (hp : st.pools[idx]? = some pool)
    (hcnt : 0 < pool.high_count + pool.low_count) :
    ∃ pg, (alloc_buffer_page st flags o).1 = some pg := by
  rw [alloc_buffer_page_noncached_eq st flags o idx pool hc hidx hp]
  obtain ⟨pg, pool', heq, -, -, -⟩ := pool_alloc_nonempty pool st.host hcnt
  rw [heq]
  exact ⟨pg, rfl⟩

/-- The order scan of the packer, entered with the `from_pool`
accumulator clear on a non-cached buffer, labels the returned run
exactly with the pool residency of the order it served: a pool seen
non-empty is served from the pool (so its label is true), and a pool
seen empty yields either a fresh unlabelled page or a fallback whose
label starts clear again. -/
theorem alloc_largest_go_from_pool (flags : IonFlags) (size mo : Nat)
    (hc : flags.cached = false) (L : List Nat) :
    ∀ (st : HeapState), WF st → (∀ o ∈ L, o ∈ orders) →
    ∀ pg st', alloc_largest_go flags size mo st false L = (some pg, st') →
    ∃ idx, order_to_index pg.order = some idx ∧
      (pg.from_pool = true ↔ 0 < pool_count st idx) := by
  induction L with
  | nil =>
    intro st hwf hL pg st' h
    simp [alloc_largest_go] at h
  | cons o rest ih =>
    intro st hwf hL pg st' h
    have ho : o ∈ orders := hL o (List.mem_cons_self _ _)
    have hLr : ∀ o' ∈ rest, o' ∈ orders := fun o' h' => hL o' (List.mem_cons_of_mem _ h')
    by_cases h1 : size < order_to_size o
    · rw [show alloc_largest_go flags size mo st false (o :: rest)
          = alloc_largest_go flags size mo st false rest by
        rw [alloc_largest_go, if_pos h1]] at h
      exact ih st hwf hLr pg st' h
    · by_cases h2 : mo < o
      · rw [show alloc_largest_go flags size mo st false (o :: rest)
            = alloc_largest_go flags size mo st false rest by
          rw [alloc_largest_go, if_neg h1, if_pos h2]] at h
        exact ih st hwf hLr pg st' h
      · obtain ⟨idx, hidx⟩ := order_to_index_of_mem ho
        obtain ⟨pool, hp, hpo⟩ := WF_pool_at hwf hidx
        have hfp' : (false || decide (pool.high_count > 0)
            || decide (pool.low_count > 0)) = decide (0 < pool.high_count + pool.low_count) := by
          rcases Nat.eq_zero_or_pos (pool.high_count + pool.low_count) with hz | hpos
          · simp [Nat.eq_zero_of_add_eq_zero_right hz,
              Nat.eq_zero_of_add_eq_zero_left hz, hz]
          · rcases Nat.eq_zero_or_pos pool.high_count with hh | hh <;>
              simp [hh, hpos] <;> omega
        have hshape :
            ((alloc_buffer_page st flags o).1 = none →
              alloc_largest_go flags size mo st false (o :: rest)
                = alloc_largest_go flags size mo (alloc_buffer_page st flags o).2
                    (decide (0 < pool.high_count + pool.low_count)) rest) ∧
            (∀ pg0, (alloc_buffer_page st flags o).1 = some pg0 →
              alloc_largest_go flags size mo st false (o :: rest)
                = (some (if decide (0 < pool.high_count + pool.low_count)
                         then { pg0 with order := o, from_pool := true }
                         else { pg0 with order := o }),
                   (alloc_buffer_page st flags o).2)) := by
          constructor
          · intro hr
            rw [alloc_largest_go, if_neg h1, if_neg h2]
            rw [← hfp']
            simp [hc, hidx, hp, hr]
          · intro pg0 hr
            rw [alloc_largest_go, if_neg h1, if_neg h2]
            rw [← hfp']
            simp [hc, hidx, hp, hr]
        obtain ⟨hgoN, hgoS⟩ := hshape
        rcases Nat.eq_zero_or_pos (pool.high_count + pool.low_count) with hz | hpos
        · cases hr : (alloc_buffer_page st flags o).1 with
          | none =>
            rw [hgoN hr] at h
            have hzd : decide (0 < pool.high_count + pool.low_count) = false := by
              simp [hz]
            rw [hzd] at h
            obtain ⟨swf, -, -, -, -, -, snone⟩ :=
              alloc_buffer_page_spec st flags o idx hwf hidx
            obtain ⟨npools, -⟩ := snone hr
            obtain ⟨idx', hidx', hiff⟩ := ih _ swf hLr pg st' h
            refine ⟨idx', hidx', ?_⟩
            rw [pool_count_congr npools idx'] at hiff
            exact hiff
          | some pg0 =>
            rw [hgoS pg0 hr] at h
            have hzd : decide (0 < pool.high_count + pool.low_count) = false := by
              simp [hz]
            rw [hzd] at h
            simp only [Bool.false_eq_true, if_false, Prod.mk.injEq,
              Option.some.injEq] at h
            obtain ⟨hpg, -⟩ := h
            have hfp0 := alloc_buffer_page_empty_from_pool st flags o idx pool
              hc hidx hp hz pg0 hr
            refine ⟨idx, ?_, ?_⟩
            · rw [← hpg]
              exact hidx
            · rw [← hpg, pool_count_eq hp]
              simp [hz, hfp0]
        · obtain ⟨pg0, hr⟩ := alloc_buffer_page_nonempty_some st flags o idx pool
            hc hidx hp hpos
          rw [hgoS pg0 hr] at h
          have hzd : decide (0 < pool.high_count + pool.low_count) = true := by
            simp [hpos]
          rw [hzd] at h
          simp only [if_true, Prod.mk.injEq, Option.some.injEq] at h
          obtain ⟨hpg, -⟩ := h
          refine ⟨idx, ?_, ?_⟩
          · rw [← hpg]
            exact hidx
          · rw [← hpg, pool_count_eq hp]
            simp [hpos]

/-- C2: in a single non-cached packer step the `from_pool` label on the
run actually returned equals the residency test
`high_count + low_count > 0` of that run's own order's pool, read in the
state the step was entered with; labels do not leak across orders. -/
theorem from_pool_label_exact (st st' : HeapState) (flags : IonFlags)
    (size mo : Nat) (pg : Page)
    (hwf : WF st) (hc : flags.cached = false)
    (h : alloc_largest_available st flags size mo = (some pg, st')) :
    ∃ idx, order_to_index pg.order = some idx ∧
      (pg.from_pool = true ↔ 0 < pool_count st idx) :=
  alloc_largest_go_from_pool flags size mo hc orders st hwf (fun _ h' => h')
    pg st' h

/-- Shape of `ion_system_heap_free` on a non-cached buffer without
`NOZEROED`: the zeroing pass runs (and is logged) before the per-entry
frees. -/
theorem free_zeroing_eq (st : HeapState) (flags : IonFlags)
    (tbl : List Scatterlist) (hc : flags.cached = false)
    (hnz : flags.nozeroed = false) :
    ion_system_heap_free st flags tbl =
      (tbl.map (fun e => { e with page := { e.page with zeroed := true } })).foldl
        (fun st e => free_buffer_page st flags e.page (get_order e.length))
        { st with zero_log := st.zero_log ++ [tbl.map (fun e => e.page.id)] } := by
  simp only [ion_system_heap_free, hc, hnz]
  simp

/-- Shape of `ion_system_heap_free` when the buffer is cached or sets
`NOZEROED`: no zeroing pass, entries are freed as they are. -/
theorem free_nozeroing_eq (st : HeapState) (flags : IonFlags)
    (tbl : List Scatterlist) (h : flags.cached = true ∨ flags.nozeroed = true) :
    ion_system_heap_free st flags tbl =
      tbl.foldl (fun st e => free_buffer_page st flags e.page (get_order e.length))
        st := by
  rcases h with h | h <;> simp only [ion_system_heap_free, h] <;> simp

/-- The per-entry free fold never touches the zero log. -/
theorem fold_free_zero_log (flags : IonFlags) (tbl : List Scatterlist) :
    ∀ st : HeapState,
    (tbl.foldl (fun st e => free_buffer_page st flags e.page (get_order e.length))
      st).zero_log = st.zero_log := by
  induction tbl with
  | nil => intro st; rfl
  | cons e rest ih =>
    intro st
    have hgo : (e :: rest).foldl
        (fun st e => free_buffer_page st flags e.page (get_order e.length)) st
        = rest.foldl (fun st e => free_buffer_page st flags e.page (get_order e.length))
            (free_buffer_page st flags e.page (get_order e.length)) := rfl
    rw [hgo, ih]
    exact (free_buffer_page_frame st flags e.page (get_order e.length)).1

/-- Pool residents after the per-entry free fold come from the prior
residents or from the freed table entries. -/
theorem fold_free_residents (flags : IonFlags) (tbl : List Scatterlist) :
    ∀ (st : HeapState) (q : Page),
    q ∈ poolResidents (tbl.foldl
      (fun st e => free_buffer_page st flags e.page (get_order e.length)) st) →
    q ∈ poolResidents st ∨ ∃ e ∈ tbl, q = e.page := by
  induction tbl with
  | nil =>
    intro st q h
    exact Or.inl h
  | cons e rest ih =>
    intro st q h
    have hgo : (e :: rest).foldl
        (fun st e => free_buffer_page st flags e.page (get_order e.length)) st
        = rest.foldl (fun st e => free_buffer_page st flags e.page (get_order e.length))
            (free_buffer_page st flags e.page (get_order e.length)) := rfl
    rw [hgo] at h
    rcases ih _ q h with h' | ⟨e', he', hq⟩
    · rcases free_buffer_page_residents h' with h'' | rfl
      · exact Or.inl h''
      · exact Or.inr ⟨e, List.mem_cons_self _ _, rfl⟩
    · exact Or.inr ⟨e', List.mem_cons_of_mem _ he', hq⟩

/-- The per-entry free fold on a cached buffer never touches the pools
and sends every entry to the host free log. -/
theorem fold_free_cached (flags : IonFlags) (hc : flags.cached = true)
    (tbl : List Scatterlist) :
    ∀ st : HeapState,
    (tbl.foldl (fun st e => free_buffer_page st flags e.page (get_order e.length))
      st).pools = st.pools ∧
    (tbl.foldl (fun st e => free_buffer_page st flags e.page (get_order e.length))
      st).host.freed = st.host.freed ++
        tbl.flatMap (fun e =>
          if flags.fault_user_mappings then
            (List.range (1 <<< get_order e.length)).map
              (fun i => ({ e.page with id := e.page.id + i }, 0))
          else [(e.page, get_order e.length)]) ∧
    (tbl.foldl (fun st e => free_buffer_page st flags e.page (get_order e.length))
      st).bugged = st.bugged := by
  induction tbl with
  | nil =>
    intro st
    exact ⟨rfl, by simp, rfl⟩
  | cons e rest ih =>
    intro st
    have hgo : (e :: rest).foldl
        (fun st e => free_buffer_page st flags e.page (get_order e.length)) st
        = rest.foldl (fun st e => free_buffer_page st flags e.page (get_order e.length))
            (free_buffer_page st flags e.page (get_order e.length)) := rfl
    have hone := free_buffer_page_cached_eq st flags e.page (get_order e.length) hc
    obtain ⟨ip, ifr, ibug⟩ := ih (free_buffer_page st flags e.page (get_order e.length))
    rw [hgo]
    refine ⟨?_, ?_, ?_⟩
    · rw [ip, hone]
      cases hs : flags.fault_user_mappings <;> simp
    · rw [ifr, hone]
      cases hs : flags.fault_user_mappings <;>
        simp [List.flatMap_cons, List.append_assoc]
    · rw [ibug, hone]
      cases hs : flags.fault_user_mappings <;> simp

/-- The per-entry free fold preserves well-formedness and reaches no
`BUG()` when every entry length is a whole run of an allowed order. -/
theorem fold_free_wf_bugged (flags : IonFlags) (tbl : List Scatterlist)
    (hlen : ∀ e ∈ tbl, ∃ o ∈ orders, e.length = order_to_size o) :
    ∀ st : HeapState, WF st →
    WF (tbl.foldl (fun st e => free_buffer_page st flags e.page (get_order e.length))
      st) ∧
    (tbl.foldl (fun st e => free_buffer_page st flags e.page (get_order e.length))
      st).bugged = st.bugged := by
  induction tbl with
  | nil =>
    intro st hwf
    exact ⟨hwf, rfl⟩
  | cons e rest ih =>
    intro st hwf
    obtain ⟨o, ho, hl⟩ := hlen e (List.mem_cons_self _ _)
    obtain ⟨idx, hidx⟩ := order_to_index_of_mem ho
    have hgeto : get_order e.length = o := by
      rw [hl, order_to_size_eq]
      exact get_order_order_to_size ho
    have hgo : (e :: rest).foldl
        (fun st e => free_buffer_page st flags e.page (get_order e.length)) st
        = rest.foldl (fun st e => free_buffer_page st flags e.page (get_order e.length))
            (free_buffer_page st flags e.page (get_order e.length)) := rfl
    rw [hgo, hgeto]
    obtain ⟨fwf, fbug, -, -, -, -, -⟩ :=
      free_buffer_page_spec st flags e.page o idx hwf hidx
    obtain ⟨iwf, ibug⟩ :=
      ih (fun e' he' => hlen e' (List.mem_cons_of_mem _ he')) _ fwf
    exact ⟨iwf, ibug.trans fbug⟩

theorem list_getElem?_set_self {α : Type} (l : List α) (i : Nat) (a : α)
    (h : i < l.length) : (l.set i a)[i]? = some a := by
  induction l generalizing i with
  | nil => simp at h
  | cons x xs ih =>
    cases i with
    | zero => simp
    | succ n =>
      simp only [List.set, List.getElem?_cons_succ]
      simp only [List.length_cons] at h
      exact ih n (by omega)

theorem list_getElem?_set_ne {α : Type} (l : List α) (i j : Nat) (a : α)
    (h : i ≠ j) : (l.set i a)[j]? = l[j]? := by
  induction l generalizing i j with
  | nil => rfl
  | cons x xs ih =>
    cases i with
    | zero =>
      cases j with
      | zero => exact absurd rfl h
      | succ m => simp [List.set]
    | succ n =>
      cases j with
      | zero => simp [List.set]
      | succ m =>
        simp only [List.set, List.getElem?_cons_succ]
        exact ih n m (fun hc => h (by omega))

/-- A non-cached single-page free goes to the order-0 pool (index 2):
its counter rises by one, the other pools and the host free log are
untouched. -/
theorem free_buffer_page_order0_counts (st : HeapState) (flags : IonFlags)
    (pg : Page) (hc : flags.cached = false)
    (hl : st.pools.length = num_orders) :
    pool_count (free_buffer_page st flags pg 0) 2 = pool_count st 2 + 1 ∧
    pool_count (free_buffer_page st flags pg 0) 0 = pool_count st 0 ∧
    pool_count (free_buffer_page st flags pg 0) 1 = pool_count st 1 ∧
    (free_buffer_page st flags pg 0).host.freed = st.host.freed ∧
    (free_buffer_page st flags pg 0).pools.length = num_orders := by
  have hidx : order_to_index 0 = some 2 := by decide
  have h2lt : 2 < st.pools.length := by
    rw [hl]
    decide
  have hp : st.pools[2]? = some st.pools[2] := List.getElem?_eq_getElem h2lt
  rw [free_buffer_page_pool_eq st flags pg 0 2 st.pools[2] hc hidx hp]
  obtain ⟨-, -, hcnt⟩ := pool_free_counts st.pools[2] pg
  refine ⟨?_, ?_, ?_, rfl, ?_⟩
  · rw [show pool_count { st with
        pools := st.pools.set 2 (ion_page_pool_free st.pools[2] pg) } 2
      = pool_count ({ st with
        pools := st.pools.set 2 (ion_page_pool_free st.pools[2] pg) } : HeapState) 2
      from rfl]
    simp only [pool_count, list_getElem?_set_self _ _ _ h2lt, hp]
    rw [hcnt]
  · simp only [pool_count,
      list_getElem?_set_ne st.pools 2 0 (ion_page_pool_free st.pools[2] pg)
        (by omega)]
  · simp only [pool_count,
      list_getElem?_set_ne st.pools 2 1 (ion_page_pool_free st.pools[2] pg)
        (by omega)]
  · simp only [List.length_set]
    exact hl

/-- The per-entry free fold on a non-cached table of single-page
entries pushes every entry into the order-0 pool. -/
theorem fold_free_single_pool (flags : IonFlags) (hc : flags.cached = false)
    (tbl : List Scatterlist) (hlen : ∀ e ∈ tbl, e.length = PAGE_SIZE) :
    ∀ st : HeapState, st.pools.length = num_orders →
    pool_count (tbl.foldl
        (fun st e => free_buffer_page st flags e.page (get_order e.length)) st) 2
      = pool_count st 2 + tbl.length ∧
    pool_count (tbl.foldl
        (fun st e => free_buffer_page st flags e.page (get_order e.length)) st) 0
      = pool_count st 0 ∧
    pool_count (tbl.foldl
        (fun st e => free_buffer_page st flags e.page (get_order e.length)) st) 1
      = pool_count st 1 ∧
    (tbl.foldl
        (fun st e => free_buffer_page st flags e.page (get_order e.length))
        st).host.freed = st.host.freed := by
  induction tbl with
  | nil =>
    intro st _
    exact ⟨rfl, rfl, rfl, rfl⟩
  | cons e rest ih =>
    intro st hl
    have hgo : (e :: rest).foldl
        (fun st e => free_buffer_page st flags e.page (get_order e.length)) st
        = rest.foldl (fun st e => free_buffer_page st flags e.page (get_order e.length))
            (free_buffer_page st flags e.page (get_order e.length)) := rfl
    have hlen0 : e.length = PAGE_SIZE := hlen e (List.mem_cons_self _ _)
    have hg0 : get_order e.length = 0 := by
      rw [hlen0]
      decide
    rw [hgo, hg0]
    obtain ⟨f2, f0, f1, ffr, flen⟩ :=
      free_buffer_page_order0_counts st flags e.page hc hl
    obtain ⟨i2, i0, i1, ifr⟩ :=
      ih (fun e' he' => hlen e' (List.mem_cons_of_mem _ he')) _ flen
    refine ⟨?_, ?_, ?_, ?_⟩
    · rw [i2, f2, List.length_cons]
      omega
    · rw [i0, f0]
    · rw [i1, f1]
    · rw [ifr, ffr]

/-- C3 (amended): freeing a non-cached buffer allocated with
`FAULT_USER_MAPPINGS` returns its single-page entries to the order-0
pool, not to the host: the order-0 pool's counter grows by the entry
count, the other pools' counters and the host free log are unchanged. -/
theorem free_split_noncached_pools (st : HeapState) (flags : IonFlags)
    (tbl : List Scatterlist)
    (hc : flags.cached = false) (hf : flags.fault_user_mappings = true)
    (hl : st.pools.length = num_orders)
    (hlen : ∀ e ∈ tbl, e.length = PAGE_SIZE) :
    pool_count (ion_system_heap_free st flags tbl) 2
        = pool_count st 2 + tbl.length ∧
    pool_count (ion_system_heap_free st flags tbl) 0 = pool_count st 0 ∧
    pool_count (ion_system_heap_free st flags tbl) 1 = pool_count st 1 ∧
    (ion_system_heap_free st flags tbl).host.freed = st.host.freed := by
  cases hnz : flags.nozeroed
  · rw [free_zeroing_eq st flags tbl hc hnz]
    have hlen' : ∀ e ∈ tbl.map (fun e =>
        { e with page := { e.page with zeroed := true } }), e.length = PAGE_SIZE := by
      intro e he
      obtain ⟨e0, he0, rfl⟩ := List.mem_map.mp he
      exact hlen e0 he0
    obtain ⟨i2, i0, i1, ifr⟩ :=
      fold_free_single_pool flags hc _ hlen'
        { st with zero_log := st.zero_log ++ [tbl.map (fun e => e.page.id)] } hl
    rw [List.length_map] at i2
    exact ⟨i2, i0, i1, ifr⟩
  · rw [free_nozeroing_eq st flags tbl (Or.inr hnz)]
    exact fold_free_single_pool flags hc tbl hlen st hl

/-- C6: on the free path, zeroing happens exactly for non-cached buffers
without `NOZEROED` — the zero pass over the table's pages is logged
before the per-entry frees and every page newly resident in a pool is
zeroed — and no zeroing is performed (zero log unchanged) when the
buffer is cached or sets `NOZEROED`. -/
theorem free_zeroing_policy :
    (∀ (st : HeapState) (flags : IonFlags) (tbl : List Scatterlist),
      flags.cached = false → flags.nozeroed = false →
      (ion_system_heap_free st flags tbl).zero_log
          = st.zero_log ++ [tbl.map (fun e => e.page.id)] ∧
      ∀ q ∈ poolResidents (ion_system_heap_free st flags tbl),
        q ∈ poolResidents st ∨ q.zeroed = true) ∧
    (∀ (st : HeapState) (flags : IonFlags) (tbl : List Scatterlist),
      flags.cached = true ∨ flags.nozeroed = true →
      (ion_system_heap_free st flags tbl).zero_log = st.zero_log) := by
  constructor
  · intro st flags tbl hc hnz
    rw [free_zeroing_eq st flags tbl hc hnz]
    constructor
    · rw [fold_free_zero_log]
    · intro q hq
      rcases fold_free_residents flags _ _ q hq with h | ⟨e, he, hqe⟩
      · exact Or.inl h
      · right
        obtain ⟨e0, he0, rfl⟩ := List.mem_map.mp he
        rw [hqe]
  · intro st flags tbl h
    rw [free_nozeroing_eq st flags tbl h]
    exact fold_free_zero_log flags tbl st

/-- C10: a successful contiguous-heap allocation stores `len` bytes in
`priv_virt` that are all zero (the memory comes from the zeroing
allocator). -/
theorem contig_allocate_zero_filled (h : Host) (buffer : IonBuffer) (len : Nat)
    (res : (Int × IonBuffer) × Host)
    (hr : ion_system_contig_heap_allocate h buffer len = res)
    (h0 : res.1.1 = 0) :
    ∃ mem, res.1.2.priv_virt = some mem ∧ mem.length = len ∧
      ∀ b ∈ mem, b = 0 := by
  cases hk : (kalloc_attempt h).1
  · have : ion_system_contig_heap_allocate h buffer len
        = ((-ENOMEM, buffer), (kalloc_attempt h).2) := by
      simp only [ion_system_contig_heap_allocate, kzalloc, hk]
      simp
    rw [this] at hr
    rw [← hr] at h0
    exact absurd h0 ENOMEM_ne_zero
  · have : ion_system_contig_heap_allocate h buffer len
        = ((0, { buffer with priv_virt := some (List.replicate len 0) }),
           (kalloc_attempt h).2) := by
      simp only [ion_system_contig_heap_allocate, kzalloc, hk]
      simp
    rw [this] at hr
    rw [← hr]
    refine ⟨List.replicate len 0, rfl, List.length_replicate _ _, ?_⟩
    intro b hb
    exact List.eq_of_mem_replicate hb

/-- C9: `order_to_index` reaches its `BUG()` branch exactly on orders
outside the order set {8, 4, 0}; no order arising during
`ion_system_heap_allocate` on a well-formed heap, nor during
`ion_system_heap_free` of a non-split table whose entry lengths are
whole runs of allowed orders, ever reaches it. -/
theorem order_to_index_bug_unreachable :
    (∀ o : Nat, order_to_index o = none ↔ ¬(o = 8 ∨ o = 4 ∨ o = 0)) ∧
    (∀ (st : HeapState) (buffer : SysBuffer) (size : Nat), WF st →
      (ion_system_heap_allocate st buffer size).st.bugged = st.bugged) ∧
    (∀ (st : HeapState) (flags : IonFlags) (tbl : List Scatterlist), WF st →
      flags.fault_user_mappings = false →
      (∀ e ∈ tbl, ∃ o ∈ orders, e.length = order_to_size o) →
      (ion_system_heap_free st flags tbl).bugged = st.bugged) := by
  refine ⟨?_, ?_, ?_⟩
  · intro o
    rw [order_to_index_eq]
    by_cases h8 : o = 8
    · simp [h8]
    · by_cases h4 : o = 4
      · simp [h4]
      · by_cases h0 : o = 0
        · simp [h0]
        · simp [h8, h4, h0]
  · intro st buffer size hwf
    obtain ⟨pwf, pbug, -, -, -, pmem, -, -, -, -⟩ :=
      pack_go_spec buffer.flags (entry_remaining size / PAGE_SIZE) st (entry_remaining size)
        (orders.headD 0) hwf
    have hprr : pack_go buffer.flags (entry_remaining size / PAGE_SIZE) st
        (entry_remaining size) (orders.headD 0) = packResult st buffer size := rfl
    rw [hprr] at pwf pbug pmem
    have hordmem : ∀ pg ∈ (packResult st buffer size).1.2, pg.order ∈ orders :=
      fun pg hpg => (pmem pg hpg).1
    by_cases c1 : (packResult st buffer size).1.1 = true
    · by_cases c2 : (kalloc_attempt (packResult st buffer size).2.host).1 = true
      · by_cases c3 : (kalloc_attempt
            (kalloc_attempt (packResult st buffer size).2.host).2).1 = true
        · rw [allocate_success_eq st buffer size c1 c2 c3]
          exact pbug
        · rw [allocate_sg_fail st buffer size c1 c2 (Bool.not_eq_true _ ▸ c3)]
          obtain ⟨-, fbug, -, -⟩ :=
            free_pages_list_spec buffer.flags (packResult st buffer size).1.2
              { (packResult st buffer size).2 with
                host := (kalloc_attempt
                  (kalloc_attempt (packResult st buffer size).2.host).2).2 }
              pwf hordmem
          rw [fbug]
          exact pbug
      · rw [allocate_kmalloc_fail st buffer size c1 (Bool.not_eq_true _ ▸ c2)]
        obtain ⟨-, fbug, -, -⟩ :=
          free_pages_list_spec buffer.flags (packResult st buffer size).1.2
            { (packResult st buffer size).2 with
              host := (kalloc_attempt (packResult st buffer size).2.host).2 }
            pwf hordmem
        rw [fbug]
        exact pbug
    · rw [allocate_pack_fail st buffer size (Bool.not_eq_true _ ▸ c1)]
      obtain ⟨-, fbug, -, -⟩ :=
        free_pages_list_spec buffer.flags (packResult st buffer size).1.2
          (packResult st buffer size).2 pwf hordmem
      rw [fbug]
      exact pbug
  · intro st flags tbl hwf hsp hlen
    cases hc : flags.cached
    · cases hnz : flags.nozeroed
      · rw [free_zeroing_eq st flags tbl hc hnz]
        have hlen' : ∀ e ∈ tbl.map (fun e =>
            { e with page := { e.page with zeroed := true } }),
            ∃ o ∈ orders, e.length = order_to_size o := by
          intro e he
          obtain ⟨e0, he0, rfl⟩ := List.mem_map.mp he
          exact hlen e0 he0
        obtain ⟨-, fbug⟩ :=
          fold_free_wf_bugged flags _ hlen'
            { st with zero_log := st.zero_log ++ [tbl.map (fun e => e.page.id)] }
            hwf
        rw [fbug]
      · rw [free_nozeroing_eq st flags tbl (Or.inr hnz)]
        obtain ⟨-, fbug⟩ := fold_free_wf_bugged flags tbl hlen st hwf
        exact fbug
    · rw [free_nozeroing_eq st flags tbl (Or.inl hc)]
      obtain ⟨-, fbug⟩ := fold_free_wf_bugged flags tbl hlen st hwf
      exact fbug

/-- A cached `alloc_buffer_page` leaves the pools alone and logs exactly
one host allocation whose intent flags are the low-order bundle for
order 0 and the high-order bundle otherwise. -/
theorem alloc_buffer_page_cached_log (st : HeapState) (flags : IonFlags)
    (o idx : Nat) (hc : flags.cached = true) (hidx : order_to_index o = some idx) :
    (alloc_buffer_page st flags o).2.pools = st.pools ∧
    (alloc_buffer_page st flags o).2.host.alloc_log = st.host.alloc_log
      ++ [(if o = 0 then GfpKind.lowOrder else GfpKind.highOrder, o)] ∧
    (alloc_buffer_page st flags o).2.bugged = st.bugged := by
  rw [alloc_buffer_page_cached_eq st flags o idx hc hidx]
  obtain ⟨-, -, hal⟩ := alloc_pages_host
    (if o > 0 then GfpKind.highOrder else GfpKind.lowOrder) o st.host
  refine ⟨rfl, ?_, rfl⟩
  rw [show ((alloc_pages (if o > 0 then GfpKind.highOrder else GfpKind.lowOrder)
      o st.host).1,
      ({ st with host := (alloc_pages
        (if o > 0 then GfpKind.highOrder else GfpKind.lowOrder) o st.host).2 }
        : HeapState)).2.host.alloc_log
      = (alloc_pages (if o > 0 then GfpKind.highOrder else GfpKind.lowOrder)
          o st.host).2.alloc_log from rfl]
  rw [hal]
  congr 2
  by_cases ho : o = 0
  · simp [ho]
  · have : 0 < o := Nat.pos_of_ne_zero ho
    simp [ho, this]

/-- The cached order scan never touches the pools and logs only host
allocations with the correct intent flags. -/
theorem alloc_largest_go_cached (flags : IonFlags) (hc : flags.cached = true)
    (size mo : Nat) (L : List Nat) :
    ∀ (st : HeapState) (fp : Bool), (∀ o ∈ L, o ∈ orders) →
    (alloc_largest_go flags size mo st fp L).2.pools = st.pools ∧
    (alloc_largest_go flags size mo st fp L).2.bugged = st.bugged ∧
    ∃ Lg, (alloc_largest_go flags size mo st fp L).2.host.alloc_log
        = st.host.alloc_log ++ Lg ∧
      ∀ e ∈ Lg, e.1 = (if e.2 = 0 then GfpKind.lowOrder else GfpKind.highOrder) := by
  induction L with
  | nil =>
    intro st fp _
    exact ⟨rfl, rfl, [], by simp [alloc_largest_go],
      fun e he => absurd he (List.not_mem_nil e)⟩
  | cons o rest ih =>
    intro st fp hL
    have ho : o ∈ orders := hL o (List.mem_cons_self _ _)
    have hLr : ∀ o' ∈ rest, o' ∈ orders :=
      fun o' h' => hL o' (List.mem_cons_of_mem _ h')
    by_cases h1 : size < order_to_size o
    · rw [show alloc_largest_go flags size mo st fp (o :: rest)
          = alloc_largest_go flags size mo st fp rest by
        rw [alloc_largest_go, if_pos h1]]
      exact ih st fp hLr
    · by_cases h2 : mo < o
      · rw [show alloc_largest_go flags size mo st fp (o :: rest)
            = alloc_largest_go flags size mo st fp rest by
          rw [alloc_largest_go, if_neg h1, if_pos h2]]
        exact ih st fp hLr
      · obtain ⟨idx, hidx⟩ := order_to_index_of_mem ho
        have hshape :
            ((alloc_buffer_page st flags o).1 = none →
              alloc_largest_go flags size mo st fp (o :: rest)
                = alloc_largest_go flags size mo (alloc_buffer_page st flags o).2
                    fp rest) ∧
            (∀ pg0, (alloc_buffer_page st flags o).1 = some pg0 →
              alloc_largest_go flags size mo st fp (o :: rest)
                = (some (if fp then { pg0 with order := o, from_pool := true }
                         else { pg0 with order := o }),
                   (alloc_buffer_page st flags o).2)) := by
          constructor
          · intro hr
            rw [alloc_largest_go, if_neg h1, if_neg h2]
            simp [hc, hr]
          · intro pg0 hr
            rw [alloc_largest_go, if_neg h1, if_neg h2]
            simp [hc, hr]
        obtain ⟨hgoN, hgoS⟩ := hshape
        obtain ⟨hpools1, hlog1, hbug1⟩ :=
          alloc_buffer_page_cached_log st flags o idx hc hidx
        cases hr : (alloc_buffer_page st flags o).1 with
        | none =>
          rw [hgoN hr]
          obtain ⟨ipools, ibug, Lg, ilog, iP⟩ :=
            ih (alloc_buffer_page st flags o).2 fp hLr
          refine ⟨ipools.trans hpools1, ibug.trans hbug1,
            (if o = 0 then GfpKind.lowOrder else GfpKind.highOrder, o) :: Lg,
            ?_, ?_⟩
          · rw [ilog, hlog1, List.append_assoc]
            rfl
          · intro e he
            rcases List.mem_cons.mp he with rfl | he'
            · rfl
            · exact iP e he'
        | some pg0 =>
          rw [hgoS pg0 hr]
          exact ⟨hpools1, hbug1,
            [(if o = 0 then GfpKind.lowOrder else GfpKind.highOrder, o)],
            hlog1, by
              intro e he
              rcases List.mem_cons.mp he with rfl | he'
              · rfl
              · exact absurd he' (List.not_mem_nil e)⟩

/-- The cached packing loop never touches the pools and logs only host
allocations with the correct intent flags. -/
theorem pack_go_cached (flags : IonFlags) (hc : flags.cached = true) (fuel : Nat) :
    ∀ (st : HeapState) (remaining mo : Nat),
    (pack_go flags fuel st remaining mo).2.pools = st.pools ∧
    (pack_go flags fuel st remaining mo).2.bugged = st.bugged ∧
    ∃ Lg, (pack_go flags fuel st remaining mo).2.host.alloc_log
        = st.host.alloc_log ++ Lg ∧
      ∀ e ∈ Lg, e.1 = (if e.2 = 0 then GfpKind.lowOrder else GfpKind.highOrder) := by
  induction fuel with
  | zero =>
    intro st remaining mo
    exact ⟨rfl, rfl, [], by simp [pack_go],
      fun e he => absurd he (List.not_mem_nil e)⟩
  | succ fuel ihf =>
    intro st remaining mo
    by_cases hrem : remaining = 0
    · rw [show pack_go flags (fuel + 1) st remaining mo = ((true, []), st) by
        rw [pack_go, if_pos hrem]]
      exact ⟨rfl, rfl, [], by simp, fun e he => absurd he (List.not_mem_nil e)⟩
    · have heta : alloc_largest_available st flags remaining mo
          = ((alloc_largest_available st flags remaining mo).1,
             (alloc_largest_available st flags remaining mo).2) := rfl
      obtain ⟨apools, abug, La, alog, aP⟩ :=
        alloc_largest_go_cached flags hc remaining mo orders st false
          (fun _ h => h)
      have haa : alloc_largest_available st flags remaining mo
          = alloc_largest_go flags remaining mo st false orders := rfl
      rw [← haa] at apools abug alog
      cases hp1 : (alloc_largest_available st flags remaining mo).1 with
      | none =>
        rw [show pack_go flags (fuel + 1) st remaining mo
            = ((false, []), (alloc_largest_available st flags remaining mo).2) by
          rw [pack_go, if_neg hrem, heta, hp1]]
        exact ⟨apools, abug, La, alog, aP⟩
      | some pg =>
        rw [show pack_go flags (fuel + 1) st remaining mo
            = ((((pack_go flags fuel (alloc_largest_available st flags remaining mo).2
                  (remaining - order_to_size pg.order) pg.order).1.1,
                pg :: (pack_go flags fuel
                  (alloc_largest_available st flags remaining mo).2
                  (remaining - order_to_size pg.order) pg.order).1.2)),
               (pack_go flags fuel (alloc_largest_available st flags remaining mo).2
                 (remaining - order_to_size pg.order) pg.order).2) by
          rw [pack_go, if_neg hrem, heta, hp1]]
        simp only []
        obtain ⟨ipools, ibug, Lg, ilog, iP⟩ :=
          ihf (alloc_largest_available st flags remaining mo).2
            (remaining - order_to_size pg.order) pg.order
        refine ⟨ipools.trans apools, ibug.trans abug, La ++ Lg, ?_, ?_⟩
        · rw [ilog, alog, List.append_assoc]
        · intro e he
          rcases List.mem_append.mp he with he' | he'
          · exact aP e he'
          · exact iP e he'

/-- The error-path unwind on a cached buffer touches neither the pools
nor the host allocation log. -/
theorem free_pages_list_cached (flags : IonFlags) (hc : flags.cached = true)
    (pages : List Page) :
    ∀ st : HeapState,
    (free_pages_list st flags pages).pools = st.pools ∧
    (free_pages_list st flags pages).host.alloc_log = st.host.alloc_log := by
  induction pages with
  | nil =>
    intro st
    exact ⟨rfl, rfl⟩
  | cons pg rest ih =>
    intro st
    have hgo : free_pages_list st flags (pg :: rest)
        = free_pages_list (free_buffer_page st flags
            { pg with order := 0, from_pool := false } pg.order) flags rest := rfl
    rw [hgo]
    have hone := free_buffer_page_cached_eq st flags
      { pg with order := 0, from_pool := false } pg.order hc
    obtain ⟨ipools, ilog⟩ :=
      ih (free_buffer_page st flags { pg with order := 0, from_pool := false }
        pg.order)
    constructor
    · rw [ipools, hone]
      cases hs : flags.fault_user_mappings <;> simp
    · rw [ilog, hone]
      cases hs : flags.fault_user_mappings <;> simp

/-- C8: a `CACHED` buffer bypasses the pools entirely: during allocation
no pool is touched and every host allocation uses the low-order intent
flags exactly for order 0 and the high-order flags for larger orders;
during free no pool is touched and every table entry's pages go straight
to the host free log. -/
theorem cached_bypasses_pools (flags : IonFlags) (hc : flags.cached = true) :
    (∀ (st : HeapState) (buffer : SysBuffer) (size : Nat), buffer.flags = flags →
      (ion_system_heap_allocate st buffer size).st.pools = st.pools ∧
      ∃ Lg, (ion_system_heap_allocate st buffer size).st.host.alloc_log
          = st.host.alloc_log ++ Lg ∧
        ∀ e ∈ Lg, e.1 = (if e.2 = 0 then GfpKind.lowOrder
                         else GfpKind.highOrder)) ∧
    (∀ (st : HeapState) (tbl : List Scatterlist),
      (ion_system_heap_free st flags tbl).pools = st.pools ∧
      (ion_system_heap_free st flags tbl).host.freed = st.host.freed ++
        tbl.flatMap (fun e =>
          if flags.fault_user_mappings then
            (List.range (1 <<< get_order e.length)).map
              (fun i => ({ e.page with id := e.page.id + i }, 0))
          else [(e.page, get_order e.length)])) := by
  constructor
  · intro st buffer size hbf
    have hcb : buffer.flags.cached = true := by rw [hbf]; exact hc
    obtain ⟨ppools, -, Lg, plog, pP⟩ :=
      pack_go_cached buffer.flags hcb (entry_remaining size / PAGE_SIZE) st
        (entry_remaining size) (orders.headD 0)
    have hprr : pack_go buffer.flags (entry_remaining size / PAGE_SIZE) st
        (entry_remaining size) (orders.headD 0) = packResult st buffer size := rfl
    rw [hprr] at ppools plog
    obtain ⟨-, -, klog1, -⟩ := kalloc_attempt_host (packResult st buffer size).2.host
    obtain ⟨-, -, klog2, -⟩ := kalloc_attempt_host
      (kalloc_attempt (packResult st buffer size).2.host).2
    by_cases c1 : (packResult st buffer size).1.1 = true
    · by_cases c2 : (kalloc_attempt (packResult st buffer size).2.host).1 = true
      · by_cases c3 : (kalloc_attempt
            (kalloc_attempt (packResult st buffer size).2.host).2).1 = true
        · rw [allocate_success_eq st buffer size c1 c2 c3]
          exact ⟨ppools, Lg, (klog2.trans klog1).trans plog, pP⟩
        · rw [allocate_sg_fail st buffer size c1 c2 (Bool.not_eq_true _ ▸ c3)]
          obtain ⟨fpools, flog⟩ :=
            free_pages_list_cached buffer.flags hcb (packResult st buffer size).1.2
              { (packResult st buffer size).2 with
                host := (kalloc_attempt
                  (kalloc_attempt (packResult st buffer size).2.host).2).2 }
          exact ⟨fpools.trans ppools, Lg,
            (flog.trans ((klog2.trans klog1).trans plog)), pP⟩
      · rw [allocate_kmalloc_fail st buffer size c1 (Bool.not_eq_true _ ▸ c2)]
        obtain ⟨fpools, flog⟩ :=
          free_pages_list_cached buffer.flags hcb (packResult st buffer size).1.2
            { (packResult st buffer size).2 with
              host := (kalloc_attempt (packResult st buffer size).2.host).2 }
        exact ⟨fpools.trans ppools, Lg, (flog.trans (klog1.trans plog)), pP⟩
    · rw [allocate_pack_fail st buffer size (Bool.not_eq_true _ ▸ c1)]
      obtain ⟨fpools, flog⟩ :=
        free_pages_list_cached buffer.flags hcb (packResult st buffer size).1.2
          (packResult st buffer size).2
      exact ⟨fpools.trans ppools, Lg, flog.trans plog, pP⟩
  · intro st tbl
    rw [free_nozeroing_eq st flags tbl (Or.inl hc)]
    obtain ⟨fpools, ffr, -⟩ := fold_free_cached flags hc tbl st
    exact ⟨fpools, ffr⟩

/-- C3 counterexample: freeing the non-cached split buffer of spec
scenario 6 releases nothing to the host and changes the order-0 pool's
counters (all 16 pages are pooled), refuting the claim that split pages
of a non-cached buffer go page-wise to the host with every pool's
counters unchanged. -/
theorem free_split_noncached_counterexample :
    (ion_system_heap_free wSt cexFlags cexTbl).host.freed
        = wSt.host.freed ∧
    ¬ (pool_count (ion_system_heap_free wSt cexFlags cexTbl) 2
        = pool_count wSt 2) := by decide

theorem allocate_size_fidelity_witness :
    (packResult wSt wBuf 4096).1.2 ≠ [] ∧ wTbl ≠ [] ∧
    (wTbl.map (fun e => e.length)).sum = PAGE_ALIGN 4096 :=
  allocate_size_fidelity wSt wBuf 4096 (ion_system_heap_allocate wSt wBuf 4096)
    wTbl (by decide) (by decide) (by decide) rfl (by decide) (by decide)

theorem from_pool_label_exact_witness :
    ∃ idx, order_to_index pgW.order = some idx ∧
      (pgW.from_pool = true ↔ 0 < pool_count stP idx) :=
  from_pool_label_exact stP wSt ncFlags 4096 8 pgW (by decide) (by decide)
    (by decide)

theorem free_split_noncached_pools_witness :
    pool_count (ion_system_heap_free wSt cexFlags cexTbl) 2
        = pool_count wSt 2 + cexTbl.length ∧
    pool_count (ion_system_heap_free wSt cexFlags cexTbl) 0
        = pool_count wSt 0 ∧
    pool_count (ion_system_heap_free wSt cexFlags cexTbl) 1
        = pool_count wSt 1 ∧
    (ion_system_heap_free wSt cexFlags cexTbl).host.freed
        = wSt.host.freed :=
  free_split_noncached_pools wSt cexFlags cexTbl (by decide) (by decide)
    (by decide) (by decide)

theorem allocate_pack_monotone_witness :
    nonIncreasing (wTbl4.map (fun e => get_order e.length)) = true :=
  allocate_pack_monotone wSt wBuf 69632 (ion_system_heap_allocate wSt wBuf 69632)
    wTbl4 (by decide) (by decide) rfl (by decide) (by decide)

theorem allocate_readiness_latch_witness :
    ((ion_system_heap_allocate stP wBuf 4096).buffer.ready = true ↔
      (wBuf.flags.sync_force = true ∨
       [pgW].all (fun pg => pg.from_pool) = true)) :=
  allocate_readiness_latch stP wBuf 4096 (ion_system_heap_allocate stP wBuf 4096)
    [pgW] rfl (by decide) (by decide) (by decide)

theorem free_zeroing_policy_witness :
    ((ion_system_heap_free wSt ncFlags tbl1).zero_log
        = wSt.zero_log ++ [tbl1.map (fun e => e.page.id)] ∧
      ∀ q ∈ poolResidents (ion_system_heap_free wSt ncFlags tbl1),
        q ∈ poolResidents wSt ∨ q.zeroed = true) ∧
    (ion_system_heap_free wSt cFlags tblC).zero_log = wSt.zero_log :=
  ⟨free_zeroing_policy.1 wSt ncFlags tbl1 (by decide) (by decide),
   free_zeroing_policy.2 wSt cFlags tblC (Or.inl (by decide))⟩

theorem allocate_failure_unwinds_witness :
    (ion_system_heap_allocate stE wBuf 4096).ret = -ENOMEM ∧
    (ion_system_heap_allocate stE wBuf 4096).buffer = wBuf ∧
    balance (ion_system_heap_allocate stE wBuf 4096).st + stE.host.next_id
      = balance stE + (ion_system_heap_allocate stE wBuf 4096).st.host.next_id :=
  allocate_failure_unwinds stE wBuf 4096 (ion_system_heap_allocate stE wBuf 4096)
    (by decide) rfl (by decide)

theorem cached_bypasses_pools_witness :
    ((ion_system_heap_allocate wSt cBuf 69632).st.pools = wSt.pools ∧
      ∃ Lg, (ion_system_heap_allocate wSt cBuf 69632).st.host.alloc_log
          = wSt.host.alloc_log ++ Lg ∧
        ∀ e ∈ Lg, e.1 = (if e.2 = 0 then GfpKind.lowOrder
                         else GfpKind.highOrder)) ∧
    ((ion_system_heap_free wSt cFlags tblC).pools = wSt.pools ∧
      (ion_system_heap_free wSt cFlags tblC).host.freed = wSt.host.freed ++
        tblC.flatMap (fun e =>
          if cFlags.fault_user_mappings then
            (List.range (1 <<< get_order e.length)).map
              (fun i => ({ e.page with id := e.page.id + i }, 0))
          else [(e.page, get_order e.length)])) :=
  ⟨(cached_bypasses_pools cFlags (by decide)).1 wSt cBuf 69632 rfl,
   (cached_bypasses_pools cFlags (by decide)).2 wSt tblC⟩

theorem order_to_index_bug_unreachable_witness :
    (order_to_index 5 = none ↔ ¬(5 = 8 ∨ 5 = 4 ∨ 5 = 0)) ∧
    (ion_system_heap_allocate wSt wBuf 4096).st.bugged = wSt.bugged ∧
    (ion_system_heap_free wSt ncFlags tblC).bugged = wSt.bugged :=
  ⟨order_to_index_bug_unreachable.1 5,
   order_to_index_bug_unreachable.2.1 wSt wBuf 4096 (by decide),
   order_to_index_bug_unreachable.2.2 wSt ncFlags tblC (by decide) (by decide)
     (by
       intro e he
       refine ⟨4, by decide, ?_⟩
       rw [show tblC = [⟨⟨400, true, false, 0, false⟩, 65536⟩] from rfl] at he
       rw [List.mem_singleton.mp he]
       decide)⟩

theorem contig_allocate_zero_filled_witness :
    ∃ mem, (ion_system_contig_heap_allocate wHost
        { flags := ncFlags, priv_virt := none } 8).1.2.priv_virt = some mem ∧
      mem.length = 8 ∧ ∀ b ∈ mem, b = 0 :=
  contig_allocate_zero_filled wHost { flags := ncFlags, priv_virt := none } 8
    (ion_system_contig_heap_allocate wHost
      { flags := ncFlags, priv_virt := none } 8) rfl (by decide)

end Ion
